import Mathlib

/-!
# takeout: an interactive ordering assistant (`cmd/takeaway/main.go`)

A shallow embedding of the order workflow of `main.go` and proofs of its
specification.

Modelling conventions.

* Go strings are `String`; a `[]string` is a `List String` (a nil slice and an
  empty slice are both `[]`: the program only ever takes `len` of them).
* A slice that is written through (`toppings` in `pickToppings`) is modelled by
  its backing array (a `List String` whose length is the capacity) and its
  length; the slice always starts at offset 0 of its array.
* A `map[string]string` is `Option (List (String × String))`: `none` is the nil
  map, `some kvs` an allocated map with entries `kvs`.
* The prompt library (promptui) and the YAML/JSON libraries are outside the
  program; their answers are parameters of the model.
* The Go runtime's panics (slice bounds, write to a nil map) are an explicit
  outcome.
-/

namespace Takeout

/-! ## Outcomes of running Go code -/

/-- Outcome of running a piece of Go code: it returns a value, it panics, or the
model's iteration budget was exhausted before the code returned. -/
inductive Exec (α : Type) where
  | ret (v : α)
  | panic
  | timeout
deriving DecidableEq, Repr

/-! ## The order model (`main.go` lines 68-85) -/

/-- The type `MainDish` (`type MainDish string`, line 74). -/
abbrev MainDish := String

/-- The struct `Order` (lines 68-72): `MainDish MainDish`, `Toppings []string`,
`Extras map[string]string`. -/
structure Order where
  MainDish : MainDish
  Toppings : List String
  Extras : Option (List (String × String))
deriving DecidableEq, Repr

/-- The constant `cookingLevelKey = "cookingLevel"` (line 76). -/
def cookingLevelKey : String := "cookingLevel"

/-- The constant `Hamburger MainDish = "Hamburger"` (line 78). -/
def Hamburger : MainDish := "Hamburger"

/-- The constant `Pizza MainDish = "Pizza"` (line 79). -/
def Pizza : MainDish := "Pizza"

/-- A `map[MainDish][]string`: each key is bound to the backing array of its
slice. The slice header stored in the map keeps the length and capacity it was
created with, so a lookup always yields the whole array. -/
abbrev Catalog := List (MainDish × List String)

/-- The package-level table `possibleToppings` (lines 82-85). Each slice literal has
length equal to capacity. -/
def possibleToppings : Catalog :=
  [(Hamburger, ["Cheder", "Onion"]), (Pizza, ["Tuna", "Olives"])]

/-- The catalog after the backing array of the slice stored under `dish` has
become `arr`. -/
def Catalog.store (catalog : Catalog) (dish : MainDish) (arr : List String) : Catalog :=
  catalog.map fun e => if e.1 = dish then (e.1, arr) else e

/-! ## The interactive chooser (promptui) -/

/-- What `promptui.Select.Run` returns: `(index int, value string, err error)`.
The library reports list positions, which are never negative. -/
structure Response where
  index : Nat
  label : String
  err : Option String
deriving DecidableEq, Repr

/-- The user facing the topping prompts: the answer to the `k`-th prompt of a
`pickToppings` call, given the items that prompt displays. -/
abbrev Chooser := Nat → List String → Response

/-- An answer that is a position of the displayed list: no failure, and the
returned value is the item at the returned index. -/
def Response.Valid (r : Response) (items : List String) : Prop :=
  r.err = none ∧ items[r.index]? = some r.label

instance (r : Response) (items : List String) : Decidable (r.Valid items) := by
  unfold Response.Valid; infer_instance

/-- A chooser all of whose answers are positions in the list displayed to it. -/
def Chooser.WellBehaved (chooser : Chooser) : Prop :=
  ∀ k items, items ≠ [] → (chooser k items).Valid items

/-- A chooser that may fail, and otherwise answers with a position in the list
displayed to it. -/
def Chooser.ValidOrFails (chooser : Chooser) : Prop :=
  ∀ k items, items ≠ [] → (chooser k items).err = none → (chooser k items).Valid items

/-- A user who answers the `k`-th prompt with position `picks[k]` (clamped to the
displayed list), and with the last position once `picks` is used up. -/
def scripted (picks : List Nat) : Chooser := fun k items =>
  let i := min (picks.getD k (items.length - 1)) (items.length - 1)
  { index := i, label := items.getD i "", err := none }

/-- A user who follows `picks` for the first `picks.length` prompts and whose
next prompt fails with `msg` (the user aborts). -/
def scriptedThenFail (picks : List Nat) (msg : String) : Chooser := fun k items =>
  if k < picks.length then scripted picks k items
  else { index := 0, label := "", err := some msg }

/-- The chooser `c`, except that its prompt number `m` fails with `e`. -/
def failAt (m : Nat) (e : String) (c : Chooser) : Chooser := fun k items =>
  if k = m then { index := 0, label := "", err := some e } else c k items

/-! ## Topping selection (`pickToppings`, lines 127-154) -/

/-- The Go `append(toppings, "Done")` for the slice `arr[0:len]` with capacity
`arr.length`: when there is spare capacity the element is written into the
backing array and the result shares it; otherwise a new array is allocated and
the backing array is left alone. Returns the backing array afterwards and the
slice handed to the prompt as `Items`. -/
def appendDone (arr : List String) (len : Nat) : List String × List String :=
  if len < arr.length then
    ((arr.set len "Done"), (arr.set len "Done").take (len + 1))
  else
    (arr, arr.take len ++ ["Done"])

/-- The Go `append(toppings[:i], toppings[i+1:]...)` for the slice `arr[0:len]`, with
`i < len`: the elements `i+1 .. len-1` are copied down one place inside the
backing array, whose last slot of the old slice keeps its old content. Returns
the backing array afterwards; the new slice is `arr[0:len-1]`. -/
def removeAt (arr : List String) (len i : Nat) : List String :=
  arr.take i ++ (arr.take len).drop (i + 1) ++ arr.drop (len - 1)

/-- The local state of the loop of `pickToppings`. -/
structure LoopState where
  /-- backing array of `toppings`, shared with the catalog entry -/
  arr : List String
  /-- the length `len(toppings)` -/
  len : Nat
  /-- the slice `selectedToppings` -/
  selected : List String
  /-- the `Items` of the prompts run so far -/
  shown : List (List String)
deriving DecidableEq, Repr

/-- How one pass through the loop body ends. -/
inductive Step where
  /-- the body ran to its end; the loop goes round again -/
  | next (st : LoopState)
  /-- the answer was "Done" (`topping == "Done"`): `break` -/
  | done (st : LoopState)
  /-- the prompt failed (`err != nil`): `return nil, fmt.Errorf(...)` -/
  | fail (msg : String) (st : LoopState)
  /-- a slice expression was out of range -/
  | panic
deriving DecidableEq, Repr

/-- One pass through the body of the `for` loop (lines 136-151), as prompt
number `k`. -/
def iteration (chooser : Chooser) (k : Nat) (st : LoopState) : Step :=
  let arr1 := (appendDone st.arr st.len).1
  let items := (appendDone st.arr st.len).2
  let r := chooser k items
  let shown := st.shown ++ [items]
  match r.err with
  | some e => .fail ("failed to get response: " ++ e) { st with arr := arr1, shown := shown }
  | none =>
    if r.label = "Done" then
      .done { st with arr := arr1, shown := shown }
    else if r.index + 1 ≤ st.len then
      .next { arr := removeAt arr1 st.len r.index
              len := st.len - 1
              selected := st.selected ++ [r.label]
              shown := shown }
    else
      .panic

/-- What `pickToppings` hands back, together with the state of the package-level
catalog it leaves behind and the prompts it ran. -/
structure PickOut where
  toppings : List String
  err : Option String
  catalog : Catalog
  shown : List (List String)
deriving DecidableEq, Repr

/-- The `for { ... }` loop of `pickToppings`, run for at most `fuel` passes,
starting at prompt number `k`. Yields the returned pair and the final state. -/
def loop (chooser : Chooser) : Nat → Nat → LoopState → Exec (List String × Option String × LoopState)
  | 0, _, _ => .timeout
  | fuel + 1, k, st =>
    match iteration chooser k st with
    | .next st1 => loop chooser fuel (k + 1) st1
    | .done st1 => .ret (st1.selected, none, st1)
    | .fail msg st1 => .ret ([], some msg, st1)
    | .panic => .panic

/-- The Go `pickToppings(dish)` run against the package-level table `catalog`, with at
most `fuel` passes through its loop. -/
def pickToppingsFuel (fuel : Nat) (catalog : Catalog) (dish : MainDish) (chooser : Chooser) :
    Exec PickOut :=
  match catalog.lookup dish with
  | none => .ret { toppings := [], err := none, catalog := catalog, shown := [] }
  | some toppings =>
    match loop chooser fuel 0 { arr := toppings, len := toppings.length, selected := [], shown := [] } with
    | .ret (top, err, st) =>
      .ret { toppings := top, err := err, catalog := catalog.store dish st.arr, shown := st.shown }
    | .panic => .panic
    | .timeout => .timeout

/-- The Go `pickToppings(dish)`: the loop is given one pass more than there are
candidates, which is always enough (a larger budget changes nothing). -/
def pickToppings (catalog : Catalog) (dish : MainDish) (chooser : Chooser) : Exec PickOut :=
  pickToppingsFuel ((catalog.lookup dish).getD []).length.succ catalog dish chooser

/-- Following the specification's words: present the remaining candidates plus
"Done"; if the user picks "Done", stop; otherwise remove that topping from the
remaining candidates and append it to the selection, then repeat. -/
def specPickToppings (chooser : Chooser) : Nat → Nat → List String → List String
  | 0, _, _ => []
  | fuel + 1, k, remaining =>
    let picked := (chooser k (remaining ++ ["Done"])).label
    if picked = "Done" then []
    else picked :: specPickToppings chooser fuel (k + 1) (remaining.erase picked)

/-- The spec-level selection for a candidate list: the loop above, given one
pass more than there are candidates. -/
def specPicked (chooser : Chooser) (cands : List String) : List String :=
  specPickToppings chooser (cands.length + 1) 0 cands

/-- The pair `pickToppings` returns to its caller. -/
def PickOut.returned (o : PickOut) : List String × Option String := (o.toppings, o.err)

/-- Apply a function to the value a run returns. -/
def Exec.map {α β : Type} (f : α → β) : Exec α → Exec β
  | .ret v => .ret (f v)
  | .panic => .panic
  | .timeout => .timeout

/-- The candidates still on offer: the slice `toppings` itself. -/
def LoopState.remaining (st : LoopState) : List String := st.arr.take st.len

/-- The loop of `pickToppings` on plain lists, with no backing array: the state
is the list of remaining candidates; a pick at position `i` erases position `i`.
Yields the returned pair and the `Items` of the prompts run. -/
def listLoop (chooser : Chooser) :
    Nat → Nat → List String → List String → List (List String) →
      Exec (List String × Option String × List (List String))
  | 0, _, _, _, _ => .timeout
  | fuel + 1, k, remaining, selected, shown =>
    let items := remaining ++ ["Done"]
    let r := chooser k items
    match r.err with
    | some e => .ret ([], some ("failed to get response: " ++ e), shown ++ [items])
    | none =>
      if r.label = "Done" then .ret (selected, none, shown ++ [items])
      else if r.index + 1 ≤ remaining.length then
        listLoop chooser fuel (k + 1) (remaining.eraseIdx r.index) (selected ++ [r.label])
          (shown ++ [items])
      else .panic

/-! ## Maps (`Extras`) -/

/-- The Go `m[k]` on a `map[string]string`: the zero value `""` when the key is absent or
the map is nil. -/
def mapGet (m : Option (List (String × String))) (k : String) : String :=
  match m with
  | none => ""
  | some kvs => (kvs.lookup k).getD ""

/-- Storing `v` under `k` in the entries of an allocated map: the entry for `k`
is replaced, or added when there is none. -/
def insertEntry (kvs : List (String × String)) (k v : String) : List (String × String) :=
  if (kvs.lookup k).isSome then kvs.map fun e => if e.1 = k then (k, v) else e
  else kvs ++ [(k, v)]

/-- The Go `m[k] = v` on a `map[string]string`: panics on a nil map; otherwise the entry
for `k` is replaced, or added when there is none. -/
def mapSet (m : Option (List (String × String))) (k v : String) :
    Exec (Option (List (String × String))) :=
  match m with
  | none => .panic
  | some kvs => .ret (some (insertEntry kvs k v))

/-- The entries of a map; a nil map has none. -/
def entries (m : Option (List (String × String))) : List (String × String) := m.getD []

/-! ## The file codec (`Order` struct tags, `readOrderFromFile`, `saveOrder`) -/

/-- A value of a decoded document, as far as the fields of `Order` can hold it:
a string, a sequence of strings, a string-to-string mapping (its pairs in the
order of the file), the null value, or anything else. -/
inductive Value where
  | str (s : String)
  | list (xs : List String)
  | dict (kvs : List (String × String))
  | null
  | other
deriving DecidableEq, Repr

/-- A document: the top-level mapping of a YAML or JSON file, key by key. -/
abbrev Doc := List (String × Value)

/-- The serialisation library, which turns documents into file contents of type
`β` and back. It is outside the program: how a document is spelled in bytes is
its business. -/
structure Codec (β : Type) where
  emit : Doc → Except String β
  parse : β → Except String Doc

/-- The Go `new(Order)`: every field at its zero value, the map nil. -/
def zeroOrder : Order := { MainDish := "", Toppings := [], Extras := none }

/-- The document `yaml.Marshal` builds from an `Order`, by the struct tags of
lines 69-71 (`main_dish,omitempty`, `toppings,omitempty`, `extras,omitempty`) and
the library's documented meaning of `omitempty`: a field is left out when it is
the empty string, a slice of length 0, or a map of length 0 (nil or not). -/
def encodeOrder (o : Order) : Doc :=
  (if o.MainDish = "" then [] else [("main_dish", Value.str o.MainDish)]) ++
  (if o.Toppings.length = 0 then [] else [("toppings", Value.list o.Toppings)]) ++
  (if (entries o.Extras).length = 0 then [] else [("extras", Value.dict (entries o.Extras))])

/-- How a decoder decides that a key of the document names a field: given the
key and the name in the field's tag. -/
abbrev KeyMatch := String → String → Bool

/-- Key matching of yaml.v3: the key is the tag's name, letter for letter. -/
def yamlKey : KeyMatch := fun key name => key == name

/-- The case folding `encoding/json` applies to a character of a key: Latin
letters fold to their capital, and so do the two other characters that fold to a
Latin letter, the long s (U+017F) and the Kelvin sign (U+212A). Characters that
do not fold to a Latin letter are left alone; they never occur in a tag name of
`Order`. -/
def foldChar (c : Char) : Char :=
  if c = Char.ofNat 0x17F then 'S'
  else if c = Char.ofNat 0x212A then 'K'
  else c.toUpper

/-- Key matching of `encoding/json`: the key is the tag's name, or equals it up
to case folding. -/
def jsonKey : KeyMatch := fun key name =>
  key == name || key.toList.map foldChar == name.toList.map foldChar

/-- Storing the pairs of a decoded mapping into the entries of a map, one after
the other (`m[k] = v` for each). -/
def storeAll (old kvs : List (String × String)) : List (String × String) :=
  kvs.foldl (fun m e => insertEntry m e.1 e.2) old

/-- Decoding one key of a document into an `Order`, by the struct tags of lines
69-71. A key that names a field, with a value of the field's shape, sets the
field: a string is assigned, a sequence replaces the slice, the pairs of a
mapping are stored into the map (which is allocated if it is nil). The null
value leaves a string alone and makes a slice or a map nil. A value of another
shape is a type error that leaves the field alone (decoding goes on and the
first error is reported at the end). A key that names no field is ignored. -/
def decodeField (sameKey : KeyMatch) (acc : Order × Option String) (kv : String × Value) :
    Order × Option String :=
  if sameKey kv.1 "main_dish" then
    match kv.2 with
    | .str s => ({ acc.1 with MainDish := s }, acc.2)
    | .null => acc
    | _ => (acc.1, acc.2.orElse fun _ => some "cannot unmarshal into main_dish")
  else if sameKey kv.1 "toppings" then
    match kv.2 with
    | .list xs => ({ acc.1 with Toppings := xs }, acc.2)
    | .null => ({ acc.1 with Toppings := [] }, acc.2)
    | _ => (acc.1, acc.2.orElse fun _ => some "cannot unmarshal into toppings")
  else if sameKey kv.1 "extras" then
    match kv.2 with
    | .dict kvs => ({ acc.1 with Extras := some (storeAll (entries acc.1.Extras) kvs) }, acc.2)
    | .null => ({ acc.1 with Extras := none }, acc.2)
    | _ => (acc.1, acc.2.orElse fun _ => some "cannot unmarshal into extras")
  else acc

/-- Decoding a document into `new(Order)`. -/
def decodeOrder (sameKey : KeyMatch) (doc : Doc) : Order × Option String :=
  doc.foldl (decodeField sameKey) (zeroOrder, none)

/-- The Go `Unmarshal(bytes, order)` with `order = new(Order)`: the order as the decoder
leaves it (possibly partly filled in) and the error it returns. -/
abbrev Decoder (β : Type) := β → Order × Option String

/-- The Go `Unmarshal` of a library whose parser is `parse`: a syntax error leaves the
order untouched. -/
def unmarshal {β : Type} (sameKey : KeyMatch) (parse : β → Except String Doc) : Decoder β :=
  fun bytes =>
    match parse bytes with
    | .error e => (zeroOrder, some e)
    | .ok doc => decodeOrder sameKey doc

/-- The call `yaml.Marshal(order)`: the library emits the document the struct
tags give. -/
def yamlMarshal {β : Type} (lib : Codec β) (o : Order) : Except String β :=
  lib.emit (encodeOrder o)

/-- The loop of `filepath.Ext`, over the path read backwards: stop at a path
separator, return the suffix from the first dot met. -/
def extLoop : List Char → List Char → List Char
  | [], _ => []
  | c :: rest, acc =>
    if c = '/' then [] else if c = '.' then '.' :: acc else extLoop rest (c :: acc)

/-- The Go `filepath.Ext(path)`: the suffix beginning at the final dot in the final
element of `path`; empty if there is no dot. -/
def filepathExt (path : String) : String :=
  String.mk (extLoop path.toList.reverse [])

/-- An open `*os.File`: its name and what `io.ReadAll` yields on it. -/
structure File (β : Type) where
  name : String
  readAll : Except String β

/-- The Go `readOrderFromFile(file)` (lines 192-215), returning the Go pair
`(*Order, error)`. -/
def readOrderFromFile {β : Type} (yamlDec jsonDec : Decoder β) (file : File β) :
    Option Order × Option String :=
  match file.readAll with
  | .error e => (none, some ("failed to read file: " ++ e))
  | .ok bytes =>
    let ext := filepathExt file.name
    if ext = ".yaml" ∨ ext = ".yml" then
      match (yamlDec bytes).2 with
      | some e => (none, some ("failed to read file contents: " ++ e))
      | none => (some (yamlDec bytes).1, none)
    else if ext = ".json" then
      match (jsonDec bytes).2 with
      | some e => (none, some ("failed to read file contents: " ++ e))
      | none => (some (jsonDec bytes).1, none)
    else
      (none, some "failed to determine file type")

/-! ## The workflow (`main`, lines 15-66) -/

/-- Everything outside the program that one run of `main` meets. -/
structure Env (β : Type) where
  /-- answer to the import-or-new prompt -/
  importAnswer : Response
  /-- answer to the file-name prompt: the validated path, or a failure -/
  pathAnswer : Except String String
  /-- the call `os.Open(path)`: a failure, or what reading the opened file yields -/
  openFile : String → Except String (Except String β)
  /-- the YAML library -/
  yaml : Codec β
  /-- the JSON library's parser -/
  jsonParse : β → Except String Doc
  /-- answer to the main-dish prompt -/
  dishAnswer : Response
  /-- the user at the topping prompts -/
  toppings : Chooser
  /-- answer to the cooking-level prompt -/
  levelAnswer : Response
  /-- the call `os.CreateTemp`: a failure, or the temporary directory and the random
  string that replaces the `*` of the pattern -/
  createTemp : Except String (String × String)
  /-- the call `f.Write(bytes)` on the file of that name: the error, if any -/
  write : String → β → Option String

/-- What a run does that can be observed from outside. -/
inductive Event (β : Type) where
  /-- a `promptui.Select` was run with this label and these items -/
  | select (label : String) (items : List String)
  /-- a `promptui.Prompt` was run with this label -/
  | prompt (label : String)
  /-- a line printed with `fmt.Println` -/
  | println (msg : String)
  /-- a temporary file of this name was created -/
  | create (name : String)
  /-- these bytes were written to the file of this name -/
  | write (name : String) (bytes : β)
deriving DecidableEq, Repr

/-- How a stage of `main` ends: control goes on with a value, the process exits
with status 1, it panics, or the model ran out of budget. -/
inductive Flow (α : Type) where
  | cont (v : α)
  | exit1
  | panic
  | timeout
deriving DecidableEq, Repr

/-- A stage's observable events and how it ended. -/
structure Traced (β α : Type) where
  trace : List (Event β)
  flow : Flow α
deriving DecidableEq, Repr

/-- Sequencing of stages: the second runs only if the first went on. -/
def Traced.bind {β α γ : Type} (x : Traced β α) (f : α → Traced β γ) : Traced β γ :=
  match x.flow with
  | .cont v => { trace := x.trace ++ (f v).trace, flow := (f v).flow }
  | .exit1 => { trace := x.trace, flow := .exit1 }
  | .panic => { trace := x.trace, flow := .panic }
  | .timeout => { trace := x.trace, flow := .timeout }

def importLabel : String :=
  "Please select whether to continue an existing order or create a new one"

def imprt : String := "Continue an existing order"

def noImport : String := "Create a new order"

def pathLabel : String := "Please enter the filename of an existing order"

def dishLabel : String := "Please select a main dish"

def toppingLabel : String :=
  "Please enter a topping from the following list, or select done to continue"

def levelLabel : String := "Please select a cooking level for the hamburger"

/-- The `Items` of the cooking-level prompt. -/
def cookingLevels : List String := ["MR", "M", "MW", "WD"]

/-- The Go `askToImport()` (lines 102-125), given the prompt's answer. -/
def askToImport (r : Response) : Except String Bool :=
  match r.err with
  | some e => .error ("failed to get response: " ++ e)
  | none =>
    if r.label = imprt then .ok true
    else if r.label = noImport then .ok false
    else .error "failed to understand choice"

/-- The Go `selectMainDish()` (lines 87-100), given the prompt's answer. -/
def selectMainDish (r : Response) : Except String MainDish :=
  match r.err with
  | some e => .error ("failed to get response: " ++ e)
  | none => .ok r.label

/-- The Go `pickCookingLevel()` (lines 217-229), given the prompt's answer. -/
def pickCookingLevel (r : Response) : Except String String :=
  match r.err with
  | some e => .error ("failed to determin cooking level: " ++ e)
  | none => .ok r.label

/-- The Go `askToimportOrderFromFile()` (lines 156-190), returning the Go pair
`(*Order, error)`. -/
def askToimportOrderFromFile {β : Type} (env : Env β) : Option Order × Option String :=
  match env.pathAnswer with
  | .error e => (none, some ("failed to get response: " ++ e))
  | .ok path =>
    match env.openFile path with
    | .error e => (none, some ("failed to open file: " ++ e))
    | .ok content =>
      readOrderFromFile (unmarshal yamlKey env.yaml.parse) (unmarshal jsonKey env.jsonParse)
        { name := path, readAll := content }

/-- The name `os.CreateTemp("", "order*.yml")` gives the new file. -/
def tempName (dir random : String) : String :=
  dir ++ "/" ++ "order" ++ random ++ ".yml"

/-- The Go `saveOrder(order)` (lines 231-249): on success the name of the file and the
bytes written to it; otherwise the error. -/
def saveOrder {β : Type} (env : Env β) (order : Order) :
    Traced β (Except String (String × β)) :=
  match env.createTemp with
  | .error e => ⟨[], .cont (.error ("failed to create order file: " ++ e))⟩
  | .ok (dir, random) =>
    let name := tempName dir random
    match yamlMarshal env.yaml order with
    | .error e => ⟨[.create name], .cont (.error ("failed to marshel to yml: " ++ e))⟩
    | .ok bytes =>
      match env.write name bytes with
      | some e => ⟨[.create name], .cont (.error ("failed to write to file: " ++ e))⟩
      | none =>
        ⟨[.create name, .write name bytes,
            .println ("Successfully wrote down order at " ++ name)],
          .cont (.ok (name, bytes))⟩

/-- Lines 16-31: the fresh order with its allocated `Extras`, the import
question, and the import itself when asked for. -/
def importStage {β : Type} (env : Env β) : Traced β Order :=
  let ask : Event β := .select importLabel [imprt, noImport]
  match askToImport env.importAnswer with
  | .error e => ⟨[ask, .println e], .exit1⟩
  | .ok false => ⟨[ask], .cont { MainDish := "", Toppings := [], Extras := some [] }⟩
  | .ok true =>
    match (askToimportOrderFromFile env).2 with
    | some e => ⟨[ask, .prompt pathLabel, .println e], .exit1⟩
    | none =>
      match (askToimportOrderFromFile env).1 with
      | some o => ⟨[ask, .prompt pathLabel], .cont o⟩
      | none => ⟨[ask, .prompt pathLabel], .panic⟩

/-- Lines 33-40: the main dish is asked for if it is still empty. -/
def dishStage {β : Type} (env : Env β) (o : Order) : Traced β Order :=
  if o.MainDish = "" then
    let ask : Event β := .select dishLabel [Hamburger, Pizza]
    match selectMainDish env.dishAnswer with
    | .error e => ⟨[ask, .println e], .exit1⟩
    | .ok dish => ⟨[ask], .cont { o with MainDish := dish }⟩
  else ⟨[], .cont o⟩

/-- Lines 42-48: toppings are picked if there are none yet; an error of
`pickToppings` is printed and the run goes on. -/
def toppingStage {β : Type} (env : Env β) (o : Order) : Traced β Order :=
  if o.Toppings.length = 0 then
    match pickToppings possibleToppings o.MainDish env.toppings with
    | .ret out =>
      let asks : List (Event β) := out.shown.map (Event.select toppingLabel)
      match out.err with
      | some e => ⟨asks ++ [.println e], .cont { o with Toppings := out.toppings }⟩
      | none => ⟨asks, .cont { o with Toppings := out.toppings }⟩
    | .panic => ⟨[], .panic⟩
    | .timeout => ⟨[], .timeout⟩
  else ⟨[], .cont o⟩

/-- Lines 50-57: a hamburger without a cooking level gets one. -/
def cookingStage {β : Type} (env : Env β) (o : Order) : Traced β Order :=
  if o.MainDish = Hamburger ∧ mapGet o.Extras cookingLevelKey = "" then
    let ask : Event β := .select levelLabel cookingLevels
    match pickCookingLevel env.levelAnswer with
    | .error e => ⟨[ask, .println e], .exit1⟩
    | .ok level =>
      match mapSet o.Extras cookingLevelKey level with
      | .ret m => ⟨[ask], .cont { o with Extras := m }⟩
      | _ => ⟨[ask], .panic⟩
  else ⟨[], .cont o⟩

/-- The order a finished run has saved, the file it is in and the file's bytes. -/
structure Saved (β : Type) where
  order : Order
  name : String
  bytes : β
deriving DecidableEq, Repr

/-- Lines 59-64: the order is saved; the run ends with status 0. -/
def persistStage {β : Type} (env : Env β) (o : Order) : Traced β (Saved β) :=
  (saveOrder env o).bind fun r =>
    match r with
    | .error e => ⟨[.println e], .exit1⟩
    | .ok (name, bytes) => ⟨[.println "Your order is done."], .cont ⟨o, name, bytes⟩⟩

/-- The run from the cooking-level stage on. -/
def fromCooking {β : Type} (env : Env β) (o : Order) : Traced β (Saved β) :=
  (cookingStage env o).bind (persistStage env)

/-- The run from the topping stage on. -/
def fromToppings {β : Type} (env : Env β) (o : Order) : Traced β (Saved β) :=
  (toppingStage env o).bind (fromCooking env)

/-- The run from the dish stage on: what happens to an order once it is there,
fresh or imported. -/
def fromDish {β : Type} (env : Env β) (o : Order) : Traced β (Saved β) :=
  (dishStage env o).bind (fromToppings env)

/-- The function `main()` (lines 15-66): the stages in sequence. -/
def main {β : Type} (env : Env β) : Traced β (Saved β) :=
  (importStage env).bind (fromDish env)

/-- The order a run has saved, if it got that far. -/
def Traced.saved {β : Type} (x : Traced β (Saved β)) : Option Order :=
  match x.flow with
  | .cont s => some s.order
  | _ => none

/-- Whether a prompt with this label was run. -/
def asked {β : Type} (label : String) (trace : List (Event β)) : Bool :=
  trace.any fun e =>
    match e with
    | .select l _ => l == label
    | .prompt l => l == label
    | _ => false

/-! ## Sample environments -/

/-- A library for tests: a file's content is the document itself. -/
def plainCodec : Codec Doc := { emit := fun d => .ok d, parse := fun b => .ok b }

/-- A library for tests that spells a document as itself, except that a string
of a sequence that consists of one line break is read back as the empty string,
as yaml.v3 reads back the block scalar it writes for such a string. -/
def lineBreakCodec : Codec Doc :=
  { emit := fun d => .ok d
    parse := fun b => .ok (b.map fun kv =>
      match kv.2 with
      | .list xs => (kv.1, Value.list (xs.map fun x => if x = "\n" then "" else x))
      | _ => kv) }

/-- An answer picking position `i` of `items`. -/
def pick (items : List String) (i : Nat) : Response :=
  { index := i, label := items.getD i "", err := none }

/-- A fresh run: the user creates a new order, picks dish number `dish`, answers
the topping prompts by `picks`, picks cooking level number `level`; every file
operation succeeds. -/
def freshEnv (dish : Nat) (toppings : Chooser) (level : Nat) : Env Doc :=
  { importAnswer := pick [imprt, noImport] 1
    pathAnswer := .error "^C"
    openFile := fun _ => .error "no such file"
    yaml := plainCodec
    jsonParse := fun b => .ok b
    dishAnswer := pick [Hamburger, Pizza] dish
    toppings := toppings
    levelAnswer := pick cookingLevels level
    createTemp := .ok ("/tmp", "123")
    write := fun _ _ => none }

/-- A run that continues the order in the file `path`, whose content is `doc`. -/
def importEnv (path : String) (doc : Doc) (toppings : Chooser) (level : Nat) : Env Doc :=
  { freshEnv 0 toppings level with
    importAnswer := pick [imprt, noImport] 0
    pathAnswer := .ok path
    openFile := fun p => if p = path then .ok (.ok doc) else .error "no such file" }


/-! ## Slice lemmas -/

theorem take_set_self (arr : List String) (len : Nat) (x : String) :
    (arr.set len x).take len = arr.take len := by
  rw [List.set_take]
  exact List.set_eq_of_length_le (by simp)

theorem appendDone_items (arr : List String) (len : Nat) :
    (appendDone arr len).2 = arr.take len ++ ["Done"] := by
  unfold appendDone
  split
  · rename_i hlt
    simp only
    rw [List.take_succ, take_set_self]
    simp [hlt]
  · rfl

theorem appendDone_take (arr : List String) (len : Nat) :
    (appendDone arr len).1.take len = arr.take len := by
  unfold appendDone
  split
  · exact take_set_self _ _ _
  · rfl

theorem appendDone_length (arr : List String) (len : Nat) :
    (appendDone arr len).1.length = arr.length := by
  unfold appendDone
  split <;> simp

theorem removeAt_eq (arr : List String) (len i : Nat) (hi : i < len) :
    removeAt arr len i = (arr.take len).eraseIdx i ++ arr.drop (len - 1) := by
  unfold removeAt
  rw [List.eraseIdx_eq_take_drop_succ, List.take_take, Nat.min_eq_left (Nat.le_of_lt hi)]

theorem removeAt_take (arr : List String) (len i : Nat) (hi : i < len) (h : len ≤ arr.length) :
    (removeAt arr len i).take (len - 1) = (arr.take len).eraseIdx i := by
  rw [removeAt_eq arr len i hi]
  have hl : ((arr.take len).eraseIdx i).length = len - 1 := by
    rw [List.length_eraseIdx]; simp [List.length_take, Nat.min_eq_left h, hi]
  conv_lhs => rw [← hl]
  exact List.take_left _ _

theorem removeAt_length (arr : List String) (len i : Nat) (hi : i < len) (h : len ≤ arr.length) :
    (removeAt arr len i).length = arr.length := by
  rw [removeAt_eq arr len i hi, List.length_append, List.length_eraseIdx]
  simp [List.length_take, Nat.min_eq_left h, hi]
  omega

/-! ## The loop on its backing array and the loop on lists -/

theorem remaining_length (st : LoopState) (h : st.len ≤ st.arr.length) :
    st.remaining.length = st.len := by
  simp [LoopState.remaining, List.length_take, Nat.min_eq_left h]

theorem loop_eq_listLoop (chooser : Chooser) :
    ∀ (fuel k : Nat) (st : LoopState), st.len ≤ st.arr.length →
      (loop chooser fuel k st).map (fun r => (r.1, r.2.1, r.2.2.shown)) =
        listLoop chooser fuel k st.remaining st.selected st.shown := by
  intro fuel
  induction fuel with
  | zero => intro k st _; rfl
  | succ fuel ih =>
    intro k st h
    have hlen := remaining_length st h
    unfold loop listLoop iteration
    simp only [appendDone_items]
    have hrem : st.arr.take st.len = st.remaining := rfl
    rw [hrem, hlen]
    cases herr : (chooser k (st.remaining ++ ["Done"])).err with
    | some e => simp [Exec.map]
    | none =>
      simp only
      by_cases hd : (chooser k (st.remaining ++ ["Done"])).label = "Done"
      · simp [hd, Exec.map]
      · simp only [hd, if_false]
        by_cases hi : (chooser k (st.remaining ++ ["Done"])).index + 1 ≤ st.len
        · simp only [hi, if_true]
          have hi2 : (chooser k (st.remaining ++ ["Done"])).index < st.len := hi
          have h1 : st.len ≤ (appendDone st.arr st.len).1.length := by
            rw [appendDone_length]; exact h
          rw [ih]
          · congr 1
            simp only [LoopState.remaining] at hi2 ⊢
            rw [removeAt_take _ _ _ hi2 h1, appendDone_take]
          · simp only
            rw [removeAt_length _ _ _ hi2 h1, appendDone_length]
            omega
        · simp [hi, Exec.map]

theorem pickToppingsFuel_eq_listLoop (fuel : Nat) (catalog : Catalog) (dish : MainDish)
    (cands : List String) (chooser : Chooser) (hl : catalog.lookup dish = some cands) :
    (pickToppingsFuel fuel catalog dish chooser).map (fun o => (o.toppings, o.err, o.shown)) =
      listLoop chooser fuel 0 cands [] [] := by
  have h := loop_eq_listLoop chooser fuel 0
    { arr := cands, len := cands.length, selected := [], shown := [] } (Nat.le_refl _)
  simp only [LoopState.remaining, List.take_length] at h
  rw [← h]
  unfold pickToppingsFuel
  rw [hl]
  simp only
  cases loop chooser fuel 0 { arr := cands, len := cands.length, selected := [], shown := [] } with
  | ret v => rfl
  | panic => rfl
  | timeout => rfl

/-! ## Facts about the loop on lists -/

theorem valid_pick (rem : List String) (i : Nat) (l : String)
    (h : (rem ++ ["Done"])[i]? = some l) (hd : l ≠ "Done") :
    i < rem.length ∧ rem[i]? = some l := by
  by_cases hi : i < rem.length
  · rw [List.getElem?_append_left hi] at h
    exact ⟨hi, h⟩
  · exfalso
    rw [List.getElem?_append_right (Nat.le_of_not_lt hi)] at h
    cases hj : i - rem.length with
    | zero => rw [hj] at h; simp at h; exact hd h.symm
    | succ j => rw [hj] at h; simp at h

theorem length_eraseIdx_lt (rem : List String) (i : Nat) (hi : i < rem.length) :
    (rem.eraseIdx i).length + 1 = rem.length := by
  rw [List.length_eraseIdx]; simp [hi]; omega

theorem listLoop_fuel (chooser : Chooser) :
    ∀ (fuel k : Nat) (rem sel : List String) (shown : List (List String)),
      rem.length < fuel →
      listLoop chooser fuel k rem sel shown = listLoop chooser (rem.length + 1) k rem sel shown := by
  intro fuel
  induction fuel with
  | zero => intro k rem sel shown h; omega
  | succ fuel ih =>
    intro k rem sel shown h
    unfold listLoop
    dsimp only
    cases herr : (chooser k (rem ++ ["Done"])).err with
    | some e => rfl
    | none =>
      simp only
      by_cases hd : (chooser k (rem ++ ["Done"])).label = "Done"
      · simp [hd]
      · simp only [hd, if_false]
        by_cases hi : (chooser k (rem ++ ["Done"])).index + 1 ≤ rem.length
        · simp only [hi, if_true]
          have hlen := length_eraseIdx_lt rem _ hi
          rw [ih _ _ _ _ (by omega), ← hlen]
        · simp [hi]

theorem listLoop_ne_timeout (chooser : Chooser) :
    ∀ (fuel k : Nat) (rem sel : List String) (shown : List (List String)),
      rem.length < fuel → listLoop chooser fuel k rem sel shown ≠ .timeout := by
  intro fuel
  induction fuel with
  | zero => intro k rem sel shown h; omega
  | succ fuel ih =>
    intro k rem sel shown h
    unfold listLoop
    dsimp only
    cases herr : (chooser k (rem ++ ["Done"])).err with
    | some e => simp
    | none =>
      simp only
      by_cases hd : (chooser k (rem ++ ["Done"])).label = "Done"
      · simp [hd]
      · simp only [hd, if_false]
        by_cases hi : (chooser k (rem ++ ["Done"])).index + 1 ≤ rem.length
        · simp only [hi, if_true]
          have hlen := length_eraseIdx_lt rem _ hi
          exact ih _ _ _ _ (by omega)
        · simp [hi]

/-- What the loop returns when every answer that is not a failure is a position
in the displayed list. -/
theorem listLoop_valid (chooser : Chooser) (hv : chooser.ValidOrFails) :
    ∀ (fuel k : Nat) (rem sel : List String) (shown : List (List String)),
      rem.length < fuel →
      ∃ top err shown1, listLoop chooser fuel k rem sel shown = .ret (top, err, shown1) ∧
        (err ≠ none → top = []) ∧
        (chooser.WellBehaved → err = none) ∧
        (err = none → ∃ picked, top = sel ++ picked ∧ picked.length ≤ rem.length ∧
          (∀ t ∈ picked, t ∈ rem) ∧ (rem.Nodup → picked.Nodup) ∧
          shown1.length = shown.length + picked.length + 1) := by
  intro fuel
  induction fuel with
  | zero => intro k rem sel shown h; omega
  | succ fuel ih =>
    intro k rem sel shown h
    unfold listLoop
    dsimp only
    have hne : rem ++ ["Done"] ≠ [] := by simp
    cases herr : (chooser k (rem ++ ["Done"])).err with
    | some e =>
      refine ⟨[], _, _, rfl, fun _ => rfl, ?_, ?_⟩
      · intro hw
        have := (hw k _ hne).1
        rw [herr] at this
        cases this
      · intro hc; cases hc
    | none =>
      simp only
      by_cases hd : (chooser k (rem ++ ["Done"])).label = "Done"
      · simp only [hd, if_true]
        refine ⟨sel, none, _, rfl, fun hc => absurd rfl hc, fun _ => rfl, fun _ => ?_⟩
        exact ⟨[], by simp, by simp, by simp, fun _ => List.nodup_nil, by simp⟩
      · simp only [hd, if_false]
        obtain ⟨hi, hget⟩ := valid_pick rem _ _ (hv k _ hne herr).2 hd
        have hi2 : (chooser k (rem ++ ["Done"])).index + 1 ≤ rem.length := hi
        simp only [hi2, if_true]
        have hlen := length_eraseIdx_lt rem _ hi
        obtain ⟨top, err, shown1, heq, h1, h2, h3⟩ :=
          ih (k + 1) (rem.eraseIdx (chooser k (rem ++ ["Done"])).index)
            (sel ++ [(chooser k (rem ++ ["Done"])).label]) (shown ++ [rem ++ ["Done"]]) (by omega)
        refine ⟨top, err, shown1, heq, h1, h2, fun hn => ?_⟩
        obtain ⟨picked, ht, hpl, hpm, hpn, hsl⟩ := h3 hn
        obtain ⟨hlt, hval⟩ := List.getElem?_eq_some.mp hget
        refine ⟨(chooser k (rem ++ ["Done"])).label :: picked, ?_, ?_, ?_, ?_, ?_⟩
        · rw [ht]; simp
        · simp only [List.length_cons]; omega
        · intro t ht
          rcases List.mem_cons.mp ht with h | h
          · rw [h, ← hval]; exact List.getElem_mem _
          · exact List.mem_of_mem_eraseIdx (hpm t h)
        · intro hnd
          refine List.nodup_cons.mpr ⟨fun hmem => ?_, hpn ((List.eraseIdx_sublist _ _).nodup hnd)⟩
          have := hpm _ hmem
          rw [← hval, ← List.Nodup.erase_getElem hnd _ hlt] at this
          exact (List.Nodup.not_mem_erase hnd) this
        · rw [hsl]; simp only [List.length_append, List.length_cons, List.length_nil]; omega

/-- With distinct candidates none of which is called "Done", a well-behaved
chooser's run returns what the spec-level selection returns. -/
theorem listLoop_spec (chooser : Chooser) (hw : chooser.WellBehaved) :
    ∀ (fuel k : Nat) (rem sel : List String) (shown : List (List String)),
      rem.length < fuel → rem.Nodup → "Done" ∉ rem →
      ∃ shown1, listLoop chooser fuel k rem sel shown =
        .ret (sel ++ specPickToppings chooser fuel k rem, none, shown1) := by
  intro fuel
  induction fuel with
  | zero => intro k rem sel shown h; omega
  | succ fuel ih =>
    intro k rem sel shown h hnd hD
    unfold listLoop specPickToppings
    dsimp only
    have hne : rem ++ ["Done"] ≠ [] := by simp
    obtain ⟨herr, hvalid⟩ := hw k _ hne
    rw [herr]
    simp only
    by_cases hd : (chooser k (rem ++ ["Done"])).label = "Done"
    · simp [hd]
    · simp only [hd, if_false]
      obtain ⟨hi, hget⟩ := valid_pick rem _ _ hvalid hd
      have hi2 : (chooser k (rem ++ ["Done"])).index + 1 ≤ rem.length := hi
      simp only [hi2, if_true]
      obtain ⟨hlt, hval⟩ := List.getElem?_eq_some.mp hget
      have hlen := length_eraseIdx_lt rem _ hi
      have herase : rem.erase (chooser k (rem ++ ["Done"])).label =
          rem.eraseIdx (chooser k (rem ++ ["Done"])).index := by
        rw [← hval]; exact List.Nodup.erase_getElem hnd _ hlt
      rw [herase]
      obtain ⟨shown1, heq⟩ :=
        ih (k + 1) (rem.eraseIdx (chooser k (rem ++ ["Done"])).index)
          (sel ++ [(chooser k (rem ++ ["Done"])).label]) (shown ++ [rem ++ ["Done"]]) (by omega)
          ((List.eraseIdx_sublist _ _).nodup hnd)
          (fun hmem => hD (List.mem_of_mem_eraseIdx hmem))
      exact ⟨shown1, by rw [heq]; simp⟩

/-! ## Facts about `pickToppings` -/

theorem Exec.map_eq_ret {α β : Type} (f : α → β) (x : Exec α) (v : β)
    (h : x.map f = .ret v) : ∃ a, x = .ret a ∧ f a = v := by
  cases x with
  | ret a => exact ⟨a, rfl, by simpa [Exec.map] using h⟩
  | panic => simp [Exec.map] at h
  | timeout => simp [Exec.map] at h

theorem iteration_next (chooser : Chooser) (k : Nat) (st st1 : LoopState)
    (hn : iteration chooser k st = .next st1) :
    (chooser k (st.remaining ++ ["Done"])).index < st.len ∧ st1.len + 1 = st.len ∧
      st1.selected.length = st.selected.length + 1 ∧
      st1.arr = removeAt (appendDone st.arr st.len).1 st.len
        (chooser k (st.remaining ++ ["Done"])).index := by
  unfold iteration at hn
  simp only [appendDone_items] at hn
  have hrem : st.arr.take st.len = st.remaining := rfl
  rw [hrem] at hn
  cases herr : (chooser k (st.remaining ++ ["Done"])).err with
  | some e => rw [herr] at hn; simp at hn
  | none =>
    rw [herr] at hn
    simp only at hn
    by_cases hd : (chooser k (st.remaining ++ ["Done"])).label = "Done"
    · simp [hd] at hn
    · simp only [hd, if_false] at hn
      by_cases hi : (chooser k (st.remaining ++ ["Done"])).index + 1 ≤ st.len
      · simp only [hi, if_true, Step.next.injEq] at hn
        subst hn
        refine ⟨hi, ?_, ?_, rfl⟩
        · simp only; omega
        · simp
      · simp [hi] at hn

theorem iteration_next_remaining (chooser : Chooser) (k : Nat) (st st1 : LoopState)
    (h : st.len ≤ st.arr.length) (hn : iteration chooser k st = .next st1) :
    st1.len ≤ st1.arr.length ∧ st1.remaining.length + 1 = st.remaining.length := by
  obtain ⟨hi, hlen, _, harr⟩ := iteration_next chooser k st st1 hn
  have h1 : st.len ≤ (appendDone st.arr st.len).1.length := by
    rw [appendDone_length]; exact h
  have hle : st1.len ≤ st1.arr.length := by
    rw [harr, removeAt_length _ _ _ hi h1, appendDone_length]; omega
  exact ⟨hle, by rw [remaining_length st1 hle, remaining_length st h]; exact hlen⟩

theorem loop_fuel (chooser : Chooser) :
    ∀ (fuel k : Nat) (st : LoopState), st.len < fuel →
      loop chooser fuel k st = loop chooser (st.len + 1) k st := by
  intro fuel
  induction fuel with
  | zero => intro k st h; omega
  | succ fuel ih =>
    intro k st h
    unfold loop
    cases hit : iteration chooser k st with
    | next st1 =>
      simp only
      obtain ⟨_, hlen, _, _⟩ := iteration_next chooser k st st1 hit
      rw [ih _ _ (by omega), ← hlen]
    | done st1 => rfl
    | fail msg st1 => rfl
    | panic => rfl

theorem pickToppingsFuel_eq_pickToppings (fuel : Nat) (catalog : Catalog) (dish : MainDish)
    (cands : List String) (chooser : Chooser) (hl : catalog.lookup dish = some cands)
    (hf : cands.length < fuel) :
    pickToppingsFuel fuel catalog dish chooser = pickToppings catalog dish chooser := by
  unfold pickToppings pickToppingsFuel
  rw [hl]
  simp only [Option.getD_some, Nat.succ_eq_add_one]
  rw [loop_fuel chooser fuel 0 _ hf]

theorem scripted_wellBehaved (picks : List Nat) : (scripted picks).WellBehaved := by
  intro k items hne
  refine ⟨rfl, ?_⟩
  have hpos : 0 < items.length := List.length_pos.mpr hne
  have hlt : min (picks.getD k (items.length - 1)) (items.length - 1) < items.length := by
    have := Nat.min_le_right (picks.getD k (items.length - 1)) (items.length - 1)
    omega
  simp only [scripted]
  rw [List.getElem?_eq_getElem hlt, List.getD_eq_getElem _ _ hlt]

theorem wellBehaved_validOrFails (chooser : Chooser) (hw : chooser.WellBehaved) :
    chooser.ValidOrFails :=
  fun k items hne _ => hw k items hne

/-- What `pickToppings` returns for a dish of the catalog when every answer that
is not a failure is a position in the displayed list. -/
theorem pickToppings_valid (catalog : Catalog) (dish : MainDish) (cands : List String)
    (chooser : Chooser) (hl : catalog.lookup dish = some cands) (hv : chooser.ValidOrFails) :
    ∃ out, pickToppings catalog dish chooser = .ret out ∧
      (out.err ≠ none → out.toppings = []) ∧
      (chooser.WellBehaved → out.err = none) ∧
      (out.err = none → out.toppings.length ≤ cands.length ∧
        (∀ t ∈ out.toppings, t ∈ cands) ∧ (cands.Nodup → out.toppings.Nodup) ∧
        out.shown.length = out.toppings.length + 1) := by
  obtain ⟨top, err, shown1, heq, h1, h2, h3⟩ :=
    listLoop_valid chooser hv (cands.length + 1) 0 cands [] [] (Nat.lt_succ_self _)
  rw [← pickToppingsFuel_eq_listLoop _ catalog dish cands chooser hl,
    pickToppingsFuel_eq_pickToppings _ catalog dish cands chooser hl (Nat.lt_succ_self _)] at heq
  obtain ⟨out, hout, hf⟩ := Exec.map_eq_ret _ _ _ heq
  simp only [Prod.mk.injEq] at hf
  obtain ⟨ht, he, hs⟩ := hf
  refine ⟨out, hout, ?_, ?_, ?_⟩
  · rw [ht, he]; exact h1
  · rw [he]; exact h2
  · rw [he, ht, hs]
    intro hn
    obtain ⟨picked, hp, hpl, hpm, hpn, hsl⟩ := h3 hn
    simp only [List.nil_append] at hp
    subst hp
    exact ⟨hpl, hpm, hpn, by simpa using hsl⟩

/-- Whatever the chooser answers, `pickToppings` uses up no more passes than it
is given: it returns or panics. -/
theorem pickToppings_ne_timeout (catalog : Catalog) (dish : MainDish) (chooser : Chooser) :
    pickToppings catalog dish chooser ≠ .timeout := by
  intro h
  cases hl : catalog.lookup dish with
  | none => simp [pickToppings, pickToppingsFuel, hl] at h
  | some cands =>
    have h1 := pickToppingsFuel_eq_listLoop (cands.length + 1) catalog dish cands chooser hl
    rw [pickToppingsFuel_eq_pickToppings _ catalog dish cands chooser hl (Nat.lt_succ_self _),
      h] at h1
    exact listLoop_ne_timeout chooser _ _ _ _ _ (Nat.lt_succ_self _) h1.symm

/-! ## The claims about topping selection -/

/-- C1. For every candidate list of distinct toppings none of which is named
"Done", and every chooser all of whose answers are positions in the displayed
list (the remaining candidates followed by "Done"), `pickToppings` returns the
toppings picked, in the order they were picked, and no error. -/
theorem pickToppings_returns_picked (catalog : Catalog) (dish : MainDish)
    (cands : List String) (chooser : Chooser) (hl : catalog.lookup dish = some cands)
    (hnd : cands.Nodup) (hD : "Done" ∉ cands) (hw : chooser.WellBehaved) :
    (pickToppings catalog dish chooser).map PickOut.returned =
      .ret (specPicked chooser cands, none) := by
  obtain ⟨shown1, heq⟩ :=
    listLoop_spec chooser hw (cands.length + 1) 0 cands [] [] (Nat.lt_succ_self _) hnd hD
  rw [← pickToppingsFuel_eq_listLoop _ catalog dish cands chooser hl,
    pickToppingsFuel_eq_pickToppings _ catalog dish cands chooser hl (Nat.lt_succ_self _)] at heq
  obtain ⟨out, hout, hf⟩ := Exec.map_eq_ret _ _ _ heq
  simp only [Prod.mk.injEq, List.nil_append] at hf
  rw [hout]
  simp only [Exec.map, PickOut.returned, hf.1, hf.2.1, specPicked]

/-- Candidates `[a, b, c]`, picks `b`, then `a`, then "Done": the result is
`["b", "a"]`. -/
theorem pickToppings_returns_picked_witness :
    List.lookup "d" [("d", ["a", "b", "c"])] = some ["a", "b", "c"] ∧
      ["a", "b", "c"].Nodup ∧ "Done" ∉ ["a", "b", "c"] ∧ (scripted [1, 0, 1]).WellBehaved ∧
      (pickToppings [("d", ["a", "b", "c"])] "d" (scripted [1, 0, 1])).map PickOut.returned =
        .ret (["b", "a"], none) :=
  ⟨rfl, by decide, by decide, scripted_wellBehaved _,
    pickToppings_returns_picked [("d", ["a", "b", "c"])] "d" ["a", "b", "c"] (scripted [1, 0, 1])
      rfl (by decide) (by decide) (scripted_wellBehaved _)⟩

/-- C3 fails on the code. Picking "Cheder" and then "Done" for a Hamburger
overwrites the backing array of the catalog's slice: the catalog's entry for
Hamburger was `[Cheder, Onion]` before the call and is `[Onion, Done]` after it,
and a second `pickToppings` on the same dish is offered `[Onion, Done, Done]`. -/
theorem pickToppings_overwrites_catalog :
    possibleToppings.lookup Hamburger = some ["Cheder", "Onion"] ∧
      (pickToppings possibleToppings Hamburger (scripted [0, 1])).map
        (fun o => (o.toppings, o.err, o.catalog.lookup Hamburger, o.shown.head?)) =
        .ret (["Cheder"], none, some ["Onion", "Done"], some ["Cheder", "Onion", "Done"]) ∧
      (pickToppings [(Hamburger, ["Onion", "Done"]), (Pizza, ["Tuna", "Olives"])] Hamburger
        (scripted [0, 1])).map (fun o => o.shown.head?) =
        .ret (some ["Onion", "Done", "Done"]) := by
  decide

/-- C4. For every dish of a catalog whose candidate list has no repeated entry,
and every chooser whose answers (when it does not fail) are positions in the
displayed list, `pickToppings` returns a list that contains no topping twice and
only toppings of the dish's catalog list. -/
theorem pickToppings_nodup_subset (catalog : Catalog) (dish : MainDish)
    (cands : List String) (chooser : Chooser) (hl : catalog.lookup dish = some cands)
    (hnd : cands.Nodup) (hv : chooser.ValidOrFails) :
    ∃ out, pickToppings catalog dish chooser = .ret out ∧ out.toppings.Nodup ∧
      ∀ t ∈ out.toppings, t ∈ cands := by
  obtain ⟨out, hout, h1, _, h3⟩ := pickToppings_valid catalog dish cands chooser hl hv
  refine ⟨out, hout, ?_⟩
  cases he : out.err with
  | some e =>
    have := h1 (by rw [he]; simp)
    rw [this]
    exact ⟨List.nodup_nil, by simp⟩
  | none =>
    obtain ⟨_, hm, hn, _⟩ := h3 he
    exact ⟨hn hnd, hm⟩

/-- A Hamburger order where the user picks "Onion", then "Cheder", then "Done". -/
theorem pickToppings_nodup_subset_witness :
    possibleToppings.lookup Hamburger = some ["Cheder", "Onion"] ∧
      ["Cheder", "Onion"].Nodup ∧ (scripted [1, 0, 0]).ValidOrFails ∧
      ∃ out, pickToppings possibleToppings Hamburger (scripted [1, 0, 0]) = .ret out ∧
        out.toppings.Nodup ∧ ∀ t ∈ out.toppings, t ∈ ["Cheder", "Onion"] :=
  ⟨rfl, by decide, wellBehaved_validOrFails _ (scripted_wellBehaved _),
    pickToppings_nodup_subset possibleToppings Hamburger ["Cheder", "Onion"] (scripted [1, 0, 0])
      rfl (by decide) (wellBehaved_validOrFails _ (scripted_wellBehaved _))⟩

/-- C9. The topping-selection loop terminates. For every dish of the catalog and
every chooser whose answers are positions in the displayed list: a pass through
the loop that does not end it shortens the remaining candidates by exactly one
and adds exactly one topping to the selection; with any budget of more passes
than there are candidates the loop returns (the same as `pickToppings`), without
error, after one prompt more than toppings were picked, and the result has at
most as many toppings as the dish has candidates. -/
theorem pickToppings_terminates (catalog : Catalog) (dish : MainDish) (cands : List String)
    (chooser : Chooser) (hl : catalog.lookup dish = some cands) (hw : chooser.WellBehaved) :
    (∀ k st st1, st.len ≤ st.arr.length → iteration chooser k st = .next st1 →
        st1.len ≤ st1.arr.length ∧ st1.remaining.length + 1 = st.remaining.length ∧
          st1.selected.length = st.selected.length + 1) ∧
      ∀ fuel, cands.length < fuel →
        ∃ out, pickToppingsFuel fuel catalog dish chooser = .ret out ∧
          pickToppings catalog dish chooser = .ret out ∧ out.err = none ∧
          out.shown.length = out.toppings.length + 1 ∧ out.toppings.length ≤ cands.length := by
  refine ⟨fun k st st1 h hn => ?_, fun fuel hf => ?_⟩
  · obtain ⟨hle, hrem⟩ := iteration_next_remaining chooser k st st1 h hn
    exact ⟨hle, hrem, (iteration_next chooser k st st1 hn).2.2.1⟩
  · obtain ⟨out, hout, _, h2, h3⟩ :=
      pickToppings_valid catalog dish cands chooser hl (wellBehaved_validOrFails _ hw)
    obtain ⟨hlen, _, _, hs⟩ := h3 (h2 hw)
    exact ⟨out, by rw [pickToppingsFuel_eq_pickToppings fuel catalog dish cands chooser hl hf,
      hout], hout, h2 hw, hs, hlen⟩

/-- A Pizza order where the user picks "Olives", then "Tuna", then "Done". -/
theorem pickToppings_terminates_witness :
    possibleToppings.lookup Pizza = some ["Tuna", "Olives"] ∧ (scripted [1, 0, 0]).WellBehaved ∧
      ∃ out, pickToppingsFuel 7 possibleToppings Pizza (scripted [1, 0, 0]) = .ret out ∧
        out.toppings.length ≤ 2 :=
  ⟨rfl, scripted_wellBehaved _,
    let ⟨out, h1, _, _, _, h5⟩ :=
      (pickToppings_terminates possibleToppings Pizza ["Tuna", "Olives"] (scripted [1, 0, 0])
        rfl (scripted_wellBehaved _)).2 7 (by decide)
    ⟨out, h1, h5⟩⟩

/-! ## The file codec -/

theorem filepathExt_tempName (dir random : String) :
    filepathExt (tempName dir random) = ".yml" := by
  simp [filepathExt, tempName, extLoop]

theorem lookup_eq_none_of_not_mem (kvs : List (String × String)) (k : String)
    (h : k ∉ kvs.map Prod.fst) : kvs.lookup k = none := by
  induction kvs with
  | nil => rfl
  | cons e es ih =>
    obtain ⟨a, b⟩ := e
    simp only [List.map_cons, List.mem_cons, not_or] at h
    have hk : (k == a) = false := by simpa using h.1
    simp [List.lookup_cons, hk, ih h.2]

/-- Storing pairs with distinct new keys into a map adds them in order. -/
theorem storeAll_append (kvs : List (String × String)) :
    ∀ old : List (String × String), ((old ++ kvs).map Prod.fst).Nodup →
      storeAll old kvs = old ++ kvs := by
  induction kvs with
  | nil => intro old _; simp [storeAll]
  | cons e es ih =>
    intro old h
    have hnot : e.1 ∉ old.map Prod.fst := by
      intro hm
      rw [List.map_append, List.map_cons] at h
      exact (List.nodup_append.mp h).2.2 hm (List.mem_cons_self _ _)
    have hins : insertEntry old e.1 e.2 = old ++ [e] := by
      simp [insertEntry, lookup_eq_none_of_not_mem old e.1 hnot]
    have h2 : (((old ++ [e]) ++ es).map Prod.fst).Nodup := by
      simpa [List.append_assoc] using h
    have := ih (old ++ [e]) h2
    simp only [storeAll, List.foldl_cons, hins] at this ⊢
    rw [this]
    simp

/-- Decoding the document an order encodes to gives the order back, with an
empty map read back as a nil map. -/
theorem decodeOrder_encodeOrder (o : Order) (hk : ((entries o.Extras).map Prod.fst).Nodup) :
    decodeOrder yamlKey (encodeOrder o) =
      ({ MainDish := o.MainDish, Toppings := o.Toppings,
         Extras := if entries o.Extras = [] then none else some (entries o.Extras) }, none) := by
  obtain ⟨d, t, e⟩ := o
  have hst : storeAll [] (entries e) = entries e := by
    have := storeAll_append (entries e) [] (by simpa using hk)
    simpa using this
  have hst2 : storeAll (entries none) (entries e) = entries e := hst
  unfold decodeOrder encodeOrder
  by_cases hd : d = "" <;> by_cases ht : t = [] <;> by_cases he : entries e = [] <;>
    simp [hd, ht, he, decodeField, yamlKey, zeroOrder, hst, hst2]

/-- Decoding at work: JSON keys are matched whatever their case and the pairs
of two mappings for the same field are stored one after the other; YAML keys
are matched letter for letter; the null value is no error. -/
theorem decodeOrder_examples :
    decodeOrder jsonKey
        [("Main_Dish", .str "Pizza"), ("TOPPINGS", .null), ("extras", .dict [("a", "1")]),
          ("Extras", .dict [("a", "2"), ("b", "3")])] =
        ({ MainDish := "Pizza", Toppings := [], Extras := some [("a", "2"), ("b", "3")] }, none) ∧
      decodeOrder yamlKey
        [("Main_Dish", .str "Pizza"), ("main_dish", .null), ("extras", .null)] =
        (zeroOrder, none) ∧
      (decodeOrder yamlKey [("main_dish", .str "Pizza"), ("toppings", .str "Tuna")]).2 =
        some "cannot unmarshal into toppings" := by
  refine ⟨rfl, rfl, rfl⟩

/-- C7. Once the file has been read, `readOrderFromFile` chooses by the
extension of the file's name alone: for ".yaml" and ".yml" the result is what
the YAML decoder makes of the bytes, for ".json" what the JSON decoder makes of
them, and for any other extension it is no order and the error "failed to
determine file type", whatever the decoders are. A decoder's error comes back
wrapped and without an order, even if the decoder had filled in part of one. -/
theorem readOrderFromFile_by_extension {β : Type} (yamlDec jsonDec : Decoder β)
    (name : String) (bytes : β) :
    ((filepathExt name = ".yaml" ∨ filepathExt name = ".yml") →
        readOrderFromFile yamlDec jsonDec ⟨name, .ok bytes⟩ =
          match (yamlDec bytes).2 with
          | some e => (none, some ("failed to read file contents: " ++ e))
          | none => (some (yamlDec bytes).1, none)) ∧
      (filepathExt name = ".json" →
        readOrderFromFile yamlDec jsonDec ⟨name, .ok bytes⟩ =
          match (jsonDec bytes).2 with
          | some e => (none, some ("failed to read file contents: " ++ e))
          | none => (some (jsonDec bytes).1, none)) ∧
      (filepathExt name ≠ ".yaml" → filepathExt name ≠ ".yml" → filepathExt name ≠ ".json" →
        readOrderFromFile yamlDec jsonDec ⟨name, .ok bytes⟩ =
          (none, some "failed to determine file type")) ∧
      ((readOrderFromFile yamlDec jsonDec ⟨name, .ok bytes⟩).2 ≠ none →
        (readOrderFromFile yamlDec jsonDec ⟨name, .ok bytes⟩).1 = none) := by
  refine ⟨fun h => ?_, fun h => ?_, fun h1 h2 h3 => ?_, ?_⟩
  · simp only [readOrderFromFile, h, if_true]
  · simp [readOrderFromFile, h]
  · simp [readOrderFromFile, h1, h2, h3]
  · unfold readOrderFromFile
    simp only
    split
    · cases (yamlDec bytes).2 <;> simp
    · split
      · cases (jsonDec bytes).2 <;> simp
      · simp

/-- The files "order.yml", "order.json", "notes.txt" and "README", read with a
YAML decoder that fails half-way and a JSON decoder that succeeds. -/
theorem readOrderFromFile_by_extension_witness :
    readOrderFromFile (fun _ : Doc => ({ zeroOrder with MainDish := "Pizza" }, some "bad indent"))
        (fun _ => ({ zeroOrder with MainDish := "Pizza" }, none)) ⟨"order.yml", .ok []⟩ =
        (none, some "failed to read file contents: bad indent") ∧
      readOrderFromFile (fun _ : Doc => ({ zeroOrder with MainDish := "Pizza" }, some "bad indent"))
        (fun _ => ({ zeroOrder with MainDish := "Pizza" }, none)) ⟨"order.json", .ok []⟩ =
        (some { zeroOrder with MainDish := "Pizza" }, none) ∧
      readOrderFromFile (fun _ : Doc => ({ zeroOrder with MainDish := "Pizza" }, some "bad indent"))
        (fun _ => ({ zeroOrder with MainDish := "Pizza" }, none)) ⟨"notes.txt", .ok []⟩ =
        (none, some "failed to determine file type") ∧
      readOrderFromFile (fun _ : Doc => ({ zeroOrder with MainDish := "Pizza" }, some "bad indent"))
        (fun _ => ({ zeroOrder with MainDish := "Pizza" }, none)) ⟨"README", .ok []⟩ =
        (none, some "failed to determine file type") :=
  ⟨(readOrderFromFile_by_extension _ _ "order.yml" []).1 (by decide),
    (readOrderFromFile_by_extension _ _ "order.json" []).2.1 (by decide),
    (readOrderFromFile_by_extension _ _ "notes.txt" []).2.2.1 (by decide) (by decide) (by decide),
    (readOrderFromFile_by_extension _ _ "README" []).2.2.1 (by decide) (by decide) (by decide)⟩

/-- C8 as stated fails on the code. The order with main dish Pizza and the one
topping that is a line break is saved (it is reachable: `main` saves it after
importing it from a JSON file), the file has the extension ".yml", and read by
`readOrderFromFile` its topping is the empty string: yaml.v3 does not read back
every string it writes. -/
theorem line_break_topping_is_not_read_back :
    (main { importEnv "order.json"
        [("main_dish", .str "Pizza"), ("toppings", .list ["\n"])] (scripted []) 0 with
        yaml := lineBreakCodec }).saved =
        some { MainDish := "Pizza", Toppings := ["\n"], Extras := none } ∧
      (saveOrder { freshEnv 1 (scripted []) 0 with yaml := lineBreakCodec }
        { MainDish := "Pizza", Toppings := ["\n"], Extras := none }).flow =
        .cont (.ok ("/tmp/order123.yml",
          [("main_dish", .str "Pizza"), ("toppings", .list ["\n"])])) ∧
      filepathExt "/tmp/order123.yml" = ".yml" ∧
      readOrderFromFile (unmarshal yamlKey lineBreakCodec.parse)
        (unmarshal jsonKey lineBreakCodec.parse)
        ⟨"/tmp/order123.yml", .ok [("main_dish", .str "Pizza"), ("toppings", .list ["\n"])]⟩ =
        (some { MainDish := "Pizza", Toppings := [""], Extras := none }, none) ∧
      ([""] : List String) ≠ ["\n"] := by
  refine ⟨rfl, rfl, rfl, rfl, by decide⟩

/-- C8, amended. Round trip for the orders whose file the YAML library reads
back as it was written. For every order (the keys of its extras distinct, as in
any Go map) that `saveOrder` has saved, if the library parses the bytes written
back to the document the order was encoded to, then: the file has the extension
".yml", its bytes are the bytes of the write, and `readOrderFromFile` on it
returns an order with the same main dish, the same toppings and the same extras
entries; a field that was unset stays unset (an order without extras entries is
read back with a nil map). -/
theorem saved_file_reads_back {β : Type} (env : Env β)
    (jsonDec : Decoder β) (o : Order) (name : String) (bytes : β)
    (hkeys : ((entries o.Extras).map Prod.fst).Nodup)
    (hs : (saveOrder env o).flow = .cont (.ok (name, bytes)))
    (hparse : env.yaml.parse bytes = .ok (encodeOrder o)) :
    filepathExt name = ".yml" ∧ Event.write name bytes ∈ (saveOrder env o).trace ∧
      env.yaml.emit (encodeOrder o) = .ok bytes ∧
      ∃ o1, readOrderFromFile (unmarshal yamlKey env.yaml.parse) jsonDec ⟨name, .ok bytes⟩ =
          (some o1, none) ∧
        o1.MainDish = o.MainDish ∧ o1.Toppings = o.Toppings ∧
        entries o1.Extras = entries o.Extras ∧
        (o.MainDish = "" → o1.MainDish = "") ∧ (o.Toppings = [] → o1.Toppings = []) ∧
        (entries o.Extras = [] → o1.Extras = none) := by
  unfold saveOrder at hs ⊢
  revert hs
  cases env.createTemp with
  | error e => simp
  | ok dr =>
    obtain ⟨dir, random⟩ := dr
    simp only
    cases hm : yamlMarshal env.yaml o with
    | error e => simp
    | ok b =>
      simp only
      cases env.write (tempName dir random) b with
      | some e => simp
      | none =>
        simp only [Flow.cont.injEq, Except.ok.injEq, Prod.mk.injEq]
        intro hs
        obtain ⟨hname, hb⟩ := hs
        subst hname hb
        have hext := filepathExt_tempName dir random
        refine ⟨hext, by simp, hm, ?_⟩
        refine ⟨{ MainDish := o.MainDish, Toppings := o.Toppings,
                  Extras := if entries o.Extras = [] then none else some (entries o.Extras) },
          ?_, rfl, rfl, ?_, fun h => h, fun h => h, ?_⟩
        · simp [readOrderFromFile, hext, unmarshal, hparse, decodeOrder_encodeOrder o hkeys]
        · by_cases he : entries o.Extras = []
          · simp only [he, if_true]; rfl
          · simp only [he, if_false]; rfl
        · intro he; simp [he]

/-- A Hamburger with onion, medium, saved through the plain test library and
read back. -/
theorem saved_file_reads_back_witness :
    ((entries (some [("cookingLevel", "M")])).map Prod.fst).Nodup ∧
      (saveOrder (freshEnv 0 (scripted []) 1)
        { MainDish := "Hamburger", Toppings := ["Onion"], Extras := some [("cookingLevel", "M")] }).flow =
        .cont (.ok ("/tmp/order123.yml",
          [("main_dish", .str "Hamburger"), ("toppings", .list ["Onion"]),
            ("extras", .dict [("cookingLevel", "M")])])) ∧
      filepathExt "/tmp/order123.yml" = ".yml" ∧
      readOrderFromFile (unmarshal yamlKey plainCodec.parse) (unmarshal jsonKey plainCodec.parse)
          ⟨"/tmp/order123.yml", .ok [("main_dish", .str "Hamburger"), ("toppings", .list ["Onion"]),
            ("extras", .dict [("cookingLevel", "M")])]⟩ =
        (some { MainDish := "Hamburger", Toppings := ["Onion"],
                Extras := some [("cookingLevel", "M")] }, none) :=
  ⟨by decide, rfl,
    (saved_file_reads_back (freshEnv 0 (scripted []) 1) (unmarshal jsonKey plainCodec.parse)
      { MainDish := "Hamburger", Toppings := ["Onion"], Extras := some [("cookingLevel", "M")] }
      "/tmp/order123.yml" _ (by decide) rfl rfl).1,
    rfl⟩

/-! ## The stages of the workflow -/

theorem importStage_new {β : Type} (env : Env β) (he : env.importAnswer.err = none)
    (hl : env.importAnswer.label = noImport) :
    importStage env =
      ⟨[.select importLabel [imprt, noImport]],
        .cont { MainDish := "", Toppings := [], Extras := some [] }⟩ := by
  have hne : ¬ noImport = imprt := by decide
  simp [importStage, askToImport, he, hl, hne]

theorem importStage_import {β : Type} (env : Env β) (o : Order)
    (he : env.importAnswer.err = none) (hl : env.importAnswer.label = imprt)
    (hread : askToimportOrderFromFile env = (some o, none)) :
    importStage env =
      ⟨[.select importLabel [imprt, noImport], .prompt pathLabel], .cont o⟩ := by
  simp [importStage, askToImport, he, hl, hread]

theorem dishStage_ask {β : Type} (env : Env β) (o : Order) (h : o.MainDish = "")
    (he : env.dishAnswer.err = none) :
    dishStage env o =
      ⟨[.select dishLabel [Hamburger, Pizza]], .cont { o with MainDish := env.dishAnswer.label }⟩ := by
  simp [dishStage, selectMainDish, h, he]

theorem dishStage_skip {β : Type} (env : Env β) (o : Order) (h : o.MainDish ≠ "") :
    dishStage env o = ⟨[], .cont o⟩ := by
  simp [dishStage, h]

theorem toppingStage_skip {β : Type} (env : Env β) (o : Order) (h : o.Toppings ≠ []) :
    toppingStage env o = ⟨[], .cont o⟩ := by
  have : ¬ o.Toppings.length = 0 := fun hl => h (List.length_eq_zero.mp hl)
  simp [toppingStage, this]

theorem toppingStage_ret {β : Type} (env : Env β) (o : Order) (out : PickOut)
    (h : o.Toppings = [])
    (hp : pickToppings possibleToppings o.MainDish env.toppings = .ret out) :
    toppingStage env o =
      ⟨out.shown.map (Event.select toppingLabel) ++
          (match out.err with
           | some e => [.println e]
           | none => []),
        .cont { o with Toppings := out.toppings }⟩ := by
  unfold toppingStage
  rw [hp]
  simp only [h, List.length_nil, if_true]
  cases out.err <;> simp

theorem cookingStage_skip {β : Type} (env : Env β) (o : Order)
    (h : ¬(o.MainDish = Hamburger ∧ mapGet o.Extras cookingLevelKey = "")) :
    cookingStage env o = ⟨[], .cont o⟩ := by
  simp only [cookingStage, h, if_false]

theorem cookingStage_ask {β : Type} (env : Env β) (o : Order)
    (h : o.MainDish = Hamburger ∧ mapGet o.Extras cookingLevelKey = "")
    (he : env.levelAnswer.err = none) :
    cookingStage env o =
      match mapSet o.Extras cookingLevelKey env.levelAnswer.label with
      | .ret m => ⟨[.select levelLabel cookingLevels], .cont { o with Extras := m }⟩
      | _ => ⟨[.select levelLabel cookingLevels], .panic⟩ := by
  simp only [cookingStage, h, and_self, if_true, pickCookingLevel, he]

theorem persistStage_ok {β : Type} (env : Env β) (o : Order) (dir random : String) (bytes : β)
    (hct : env.createTemp = .ok (dir, random))
    (hemit : env.yaml.emit (encodeOrder o) = .ok bytes)
    (hwrite : env.write (tempName dir random) bytes = none) :
    persistStage env o =
      ⟨[.create (tempName dir random), .write (tempName dir random) bytes,
          .println ("Successfully wrote down order at " ++ tempName dir random),
          .println "Your order is done."],
        .cont ⟨o, tempName dir random, bytes⟩⟩ := by
  simp [persistStage, saveOrder, hct, yamlMarshal, hemit, hwrite, Traced.bind]

theorem persistStage_cont {β : Type} (env : Env β) (o : Order) (s : Saved β)
    (h : (persistStage env o).flow = .cont s) :
    s.order = o ∧ env.yaml.emit (encodeOrder o) = .ok s.bytes ∧
      Event.write s.name s.bytes ∈ (persistStage env o).trace := by
  unfold persistStage saveOrder at h ⊢
  revert h
  cases env.createTemp with
  | error e => simp [Traced.bind]
  | ok dr =>
    obtain ⟨dir, random⟩ := dr
    simp only
    cases hm : yamlMarshal env.yaml o with
    | error e => simp [Traced.bind]
    | ok b =>
      simp only
      cases env.write (tempName dir random) b with
      | some e => simp [Traced.bind]
      | none =>
        simp only [Traced.bind, Flow.cont.injEq]
        intro h
        subst h
        exact ⟨rfl, hm, by simp⟩

/-! ## Which prompts a stage runs -/

theorem asked_append {β : Type} (l : String) (t1 t2 : List (Event β)) :
    asked l (t1 ++ t2) = (asked l t1 || asked l t2) := by
  simp [asked, List.any_append]

theorem asked_bind {β α γ : Type} (l : String) (x : Traced β α) (f : α → Traced β γ)
    (h : asked l (x.bind f).trace = true) :
    asked l x.trace = true ∨ ∃ v, x.flow = .cont v ∧ asked l (f v).trace = true := by
  unfold Traced.bind at h
  cases hx : x.flow with
  | cont v =>
    rw [hx] at h
    simp only [asked_append, Bool.or_eq_true] at h
    rcases h with h | h
    · exact Or.inl h
    · exact Or.inr ⟨v, rfl, h⟩
  | exit1 => rw [hx] at h; exact Or.inl h
  | panic => rw [hx] at h; exact Or.inl h
  | timeout => rw [hx] at h; exact Or.inl h

theorem bind_cont {β α γ : Type} (x : Traced β α) (f : α → Traced β γ) (s : γ)
    (h : (x.bind f).flow = .cont s) : ∃ v, x.flow = .cont v ∧ (f v).flow = .cont s := by
  unfold Traced.bind at h
  cases hx : x.flow with
  | cont v => rw [hx] at h; exact ⟨v, rfl, h⟩
  | exit1 => rw [hx] at h; simp at h
  | panic => rw [hx] at h; simp at h
  | timeout => rw [hx] at h; simp at h

theorem asked_selects {β : Type} (l : String) (shown : List (List String))
    (h : asked l (shown.map (Event.select toppingLabel) : List (Event β)) = true) :
    l = toppingLabel := by
  induction shown with
  | nil => simp [asked] at h
  | cons x xs ih =>
    simp only [asked, List.map_cons, List.any_cons, Bool.or_eq_true, beq_iff_eq] at h
    rcases h with h | h
    · exact h.symm
    · exact ih h

theorem asked_dishStage {β : Type} (env : Env β) (o : Order) (l : String)
    (h : asked l (dishStage env o).trace = true) : l = dishLabel ∧ o.MainDish = "" := by
  unfold dishStage at h
  by_cases hm : o.MainDish = ""
  · simp only [hm, if_true] at h
    cases hs : selectMainDish env.dishAnswer <;> rw [hs] at h <;>
      simp [asked] at h <;> exact ⟨h.symm, hm⟩
  · simp [hm, asked] at h

theorem asked_toppingStage {β : Type} (env : Env β) (o : Order) (l : String)
    (h : asked l (toppingStage env o).trace = true) : l = toppingLabel ∧ o.Toppings = [] := by
  unfold toppingStage at h
  by_cases hm : o.Toppings.length = 0
  · refine ⟨?_, List.length_eq_zero.mp hm⟩
    simp only [hm, if_true] at h
    cases hp : pickToppings possibleToppings o.MainDish env.toppings with
    | ret out =>
      rw [hp] at h
      simp only at h
      cases he : out.err with
      | some e =>
        rw [he] at h
        simp only [asked_append, Bool.or_eq_true] at h
        rcases h with h | h
        · exact asked_selects l _ h
        · simp [asked] at h
      | none =>
        rw [he] at h
        exact asked_selects l _ h
    | panic => rw [hp] at h; simp [asked] at h
    | timeout => rw [hp] at h; simp [asked] at h
  · simp [hm, asked] at h

theorem asked_cookingStage {β : Type} (env : Env β) (o : Order) (l : String)
    (h : asked l (cookingStage env o).trace = true) :
    l = levelLabel ∧ o.MainDish = Hamburger ∧ mapGet o.Extras cookingLevelKey = "" := by
  unfold cookingStage at h
  by_cases hm : o.MainDish = Hamburger ∧ mapGet o.Extras cookingLevelKey = ""
  · simp only [hm, and_self, if_true] at h
    cases hs : pickCookingLevel env.levelAnswer with
    | error e => rw [hs] at h; simp [asked] at h; exact ⟨h.symm, hm⟩
    | ok level =>
      rw [hs] at h
      simp only at h
      cases hset : mapSet o.Extras cookingLevelKey level <;> rw [hset] at h <;>
        simp [asked] at h <;> exact ⟨h.symm, hm⟩
  · simp [hm, asked] at h

theorem asked_persistStage {β : Type} (env : Env β) (o : Order) (l : String) :
    asked l (persistStage env o).trace = false := by
  unfold persistStage saveOrder
  cases env.createTemp with
  | error e => simp [Traced.bind, asked]
  | ok dr =>
    obtain ⟨dir, random⟩ := dr
    simp only
    cases yamlMarshal env.yaml o with
    | error e => simp [Traced.bind, asked]
    | ok b =>
      simp only
      cases env.write (tempName dir random) b <;> simp [Traced.bind, asked]

/-! ## What a stage leaves alone -/

theorem bind_flow {β α γ : Type} (x : Traced β α) (f : α → Traced β γ) (v : α)
    (h : x.flow = .cont v) : (x.bind f).flow = (f v).flow := by
  simp [Traced.bind, h]

theorem bind_trace {β α γ : Type} (x : Traced β α) (f : α → Traced β γ) (v : α)
    (h : x.flow = .cont v) : (x.bind f).trace = x.trace ++ (f v).trace := by
  simp [Traced.bind, h]

theorem lookup_replace (kvs : List (String × String)) (k v k1 : String) (h : k1 ≠ k) :
    (kvs.map fun e => if e.1 = k then (k, v) else e).lookup k1 = kvs.lookup k1 := by
  induction kvs with
  | nil => rfl
  | cons e es ih =>
    obtain ⟨a, b⟩ := e
    by_cases ha : a = k
    · subst ha
      have : (k1 == a) = false := by simpa using h
      simp [List.lookup_cons, this, ih]
    · by_cases hk : k1 = a
      · subst hk; simp [List.lookup_cons, ha]
      · have : (k1 == a) = false := by simpa using hk
        simp [List.lookup_cons, ha, this, ih]

theorem lookup_replace_self (kvs : List (String × String)) (k v : String)
    (h : (kvs.lookup k).isSome) :
    (kvs.map fun e => if e.1 = k then (k, v) else e).lookup k = some v := by
  induction kvs with
  | nil => simp at h
  | cons e es ih =>
    obtain ⟨a, b⟩ := e
    by_cases ha : a = k
    · subst ha; simp [List.lookup_cons]
    · have hk : (k == a) = false := by simpa using fun hh : k = a => ha hh.symm
      simp only [List.lookup_cons, hk] at h
      simp [List.lookup_cons, ha, hk, ih h]

theorem lookup_append_new (kvs : List (String × String)) (k v k1 : String) :
    (kvs ++ [(k, v)]).lookup k1 =
      match kvs.lookup k1 with
      | some w => some w
      | none => if k1 = k then some v else none := by
  induction kvs with
  | nil =>
    by_cases h : k1 = k
    · simp [List.lookup_cons, h]
    · have : (k1 == k) = false := by simpa using h
      simp [List.lookup_cons, h, this]
  | cons e es ih =>
    obtain ⟨a, b⟩ := e
    by_cases hk : k1 = a
    · subst hk; simp [List.lookup_cons]
    · have : (k1 == a) = false := by simpa using hk
      simp [List.lookup_cons, this, ih]

/-- Writing `m[k] = v` into an allocated map: afterwards `k` is bound to `v` and
every other key is bound as before. -/
theorem mapSet_ret (m m1 : Option (List (String × String))) (k v : String)
    (h : mapSet m k v = .ret m1) :
    m ≠ none ∧ (entries m1).lookup k = some v ∧
      ∀ k1, k1 ≠ k → (entries m1).lookup k1 = (entries m).lookup k1 := by
  cases m with
  | none => simp [mapSet] at h
  | some kvs =>
    refine ⟨by simp, ?_⟩
    unfold mapSet insertEntry at h
    simp only at h
    by_cases hs : (kvs.lookup k).isSome
    · rw [if_pos hs] at h
      simp only [Exec.ret.injEq] at h
      subst h
      exact ⟨lookup_replace_self kvs k v hs, fun k1 hk => lookup_replace kvs k v k1 hk⟩
    · rw [if_neg hs] at h
      simp only [Exec.ret.injEq] at h
      subst h
      have hn : kvs.lookup k = none := by
        cases hl : kvs.lookup k with
        | none => rfl
        | some w => rw [hl] at hs; simp at hs
      refine ⟨?_, fun k1 hk => ?_⟩
      · simp [entries, lookup_append_new, hn]
      · simp only [entries, Option.getD_some, lookup_append_new, hk, if_false]
        cases kvs.lookup k1 <;> rfl

theorem mapSet_some (kvs : List (String × String)) (k v : String) :
    ∃ m1, mapSet (some kvs) k v = .ret (some m1) :=
  ⟨_, rfl⟩

theorem dishStage_cont {β : Type} (env : Env β) (o o1 : Order)
    (h : (dishStage env o).flow = .cont o1) :
    o1.Toppings = o.Toppings ∧ o1.Extras = o.Extras ∧ (o.MainDish ≠ "" → o1 = o) := by
  unfold dishStage at h
  by_cases hm : o.MainDish = ""
  · simp only [hm, if_true] at h
    cases hs : selectMainDish env.dishAnswer with
    | error e => rw [hs] at h; simp at h
    | ok d =>
      rw [hs] at h
      simp only [Flow.cont.injEq] at h
      subst h
      exact ⟨rfl, rfl, fun hc => absurd hm hc⟩
  · simp only [hm, if_false, Flow.cont.injEq] at h
    subst h
    exact ⟨rfl, rfl, fun _ => rfl⟩

theorem toppingStage_cont {β : Type} (env : Env β) (o o1 : Order)
    (h : (toppingStage env o).flow = .cont o1) :
    o1.MainDish = o.MainDish ∧ o1.Extras = o.Extras ∧ (o.Toppings ≠ [] → o1 = o) := by
  by_cases hm : o.Toppings = []
  · cases hp : pickToppings possibleToppings o.MainDish env.toppings with
    | ret out =>
      rw [toppingStage_ret env o out hm hp] at h
      simp only [Flow.cont.injEq] at h
      subst h
      exact ⟨rfl, rfl, fun hc => absurd hm hc⟩
    | panic => simp [toppingStage, hm, hp] at h
    | timeout => simp [toppingStage, hm, hp] at h
  · rw [toppingStage_skip env o hm] at h
    simp only [Flow.cont.injEq] at h
    subst h
    exact ⟨rfl, rfl, fun _ => rfl⟩

theorem mapGet_eq_of_lookup (m : Option (List (String × String))) (k v : String)
    (h : (entries m).lookup k = some v) : mapGet m k = v := by
  cases m with
  | none => simp [entries] at h
  | some kvs =>
    simp only [entries, Option.getD_some] at h
    simp [mapGet, h]

theorem cookingStage_cont {β : Type} (env : Env β) (o o1 : Order)
    (h : (cookingStage env o).flow = .cont o1) :
    o1.MainDish = o.MainDish ∧ o1.Toppings = o.Toppings ∧
      (¬(o.MainDish = Hamburger ∧ mapGet o.Extras cookingLevelKey = "") → o1 = o) ∧
      (∀ k v, (entries o.Extras).lookup k = some v →
        ¬(k = cookingLevelKey ∧ v = "" ∧ o.MainDish = Hamburger) →
        (entries o1.Extras).lookup k = some v) ∧
      (o.MainDish = Hamburger → mapGet o.Extras cookingLevelKey = "" →
        env.levelAnswer.err = none ∧ o.Extras ≠ none ∧
          (entries o1.Extras).lookup cookingLevelKey = some env.levelAnswer.label) := by
  by_cases hm : o.MainDish = Hamburger ∧ mapGet o.Extras cookingLevelKey = ""
  · unfold cookingStage at h
    rw [if_pos hm] at h
    cases he : env.levelAnswer.err with
    | some e => simp [pickCookingLevel, he] at h
    | none =>
      simp only [pickCookingLevel, he] at h
      cases hset : mapSet o.Extras cookingLevelKey env.levelAnswer.label with
      | ret m =>
        rw [hset] at h
        simp only [Flow.cont.injEq] at h
        subst h
        obtain ⟨hne, hk, hother⟩ := mapSet_ret _ _ _ _ hset
        refine ⟨rfl, rfl, fun hc => absurd hm hc, fun k v hl hex => ?_, fun _ _ => ⟨rfl, hne, hk⟩⟩
        by_cases hkk : k = cookingLevelKey
        · exfalso
          subst hkk
          have := mapGet_eq_of_lookup _ _ _ hl
          exact hex ⟨rfl, by rw [← this]; exact hm.2, hm.1⟩
        · simp only
          rw [hother k hkk]; exact hl
      | panic => rw [hset] at h; simp at h
      | timeout => rw [hset] at h; simp at h
  · rw [cookingStage_skip env o hm] at h
    simp only [Flow.cont.injEq] at h
    subst h
    exact ⟨rfl, rfl, fun _ => rfl, fun k v hl _ => hl, fun h1 h2 => absurd ⟨h1, h2⟩ hm⟩

/-- What a saved order has kept of the order that entered the dish stage. -/
theorem fromDish_cont {β : Type} (env : Env β) (o : Order) (s : Saved β)
    (h : (fromDish env o).flow = .cont s) :
    (o.MainDish ≠ "" → s.order.MainDish = o.MainDish) ∧
      (o.Toppings ≠ [] → s.order.Toppings = o.Toppings) ∧
      (∀ k v, (entries o.Extras).lookup k = some v →
        ¬(k = cookingLevelKey ∧ v = "" ∧ s.order.MainDish = Hamburger) →
        (entries s.order.Extras).lookup k = some v) ∧
      (o.MainDish ≠ "" → o.MainDish ≠ Hamburger → o.Toppings ≠ [] → s.order = o) ∧
      (s.order.MainDish = Hamburger → mapGet o.Extras cookingLevelKey = "" →
        (entries s.order.Extras).lookup cookingLevelKey = some env.levelAnswer.label) := by
  obtain ⟨o1, h1, h⟩ := bind_cont _ _ _ h
  obtain ⟨o2, h2, h⟩ := bind_cont _ _ _ h
  obtain ⟨o3, h3, h⟩ := bind_cont _ _ _ h
  obtain ⟨hs, _, _⟩ := persistStage_cont env o3 s h
  obtain ⟨d1, d2, d3⟩ := dishStage_cont env o o1 h1
  obtain ⟨t1, t2, t3⟩ := toppingStage_cont env o1 o2 h2
  obtain ⟨c1, c2, c3, c4, c5⟩ := cookingStage_cont env o2 o3 h3
  rw [hs]
  refine ⟨fun hm => ?_, fun ht => ?_, fun k v hl hex => ?_, fun hm hh ht => ?_,
    fun hm hg => (c5 (by rw [← c1]; exact hm) (by rw [t2, d2]; exact hg)).2.2⟩
  · rw [c1, t1, d3 hm]
  · rw [c2, t3 (by rw [d1]; exact ht), d1]
  · apply c4 k v (by rw [t2, d2]; exact hl)
    rw [← c1]; exact hex
  · have e1 : o1 = o := d3 hm
    have e2 : o2 = o1 := t3 (by rw [d1]; exact ht)
    have e3 : o3 = o2 := c3 (by rw [e2, e1]; exact fun hc => hh hc.1)
    rw [e3, e2, e1]

/-- Which prompts can be run from the dish stage on, and in what state of the
order that entered it. -/
theorem asked_fromDish {β : Type} (env : Env β) (o : Order) (l : String)
    (h : asked l (fromDish env o).trace = true) :
    (l = dishLabel ∧ o.MainDish = "") ∨ (l = toppingLabel ∧ o.Toppings = []) ∨
      (l = levelLabel ∧ mapGet o.Extras cookingLevelKey = "" ∧
        (o.MainDish ≠ "" → o.MainDish = Hamburger)) := by
  rcases asked_bind l _ _ h with h | ⟨o1, h1, h⟩
  · exact Or.inl (asked_dishStage env o l h)
  · obtain ⟨d1, d2, d3⟩ := dishStage_cont env o o1 h1
    rcases asked_bind l _ _ h with h | ⟨o2, h2, h⟩
    · obtain ⟨hl, ht⟩ := asked_toppingStage env o1 l h
      exact Or.inr (Or.inl ⟨hl, by rw [← d1]; exact ht⟩)
    · obtain ⟨t1, t2, _⟩ := toppingStage_cont env o1 o2 h2
      rcases asked_bind l _ _ h with h | ⟨o3, _, h⟩
      · obtain ⟨hl, hm, hg⟩ := asked_cookingStage env o2 l h
        refine Or.inr (Or.inr ⟨hl, by rw [← d2, ← t2]; exact hg, fun hne => ?_⟩)
        rw [← d3 hne, ← t1]; exact hm
      · rw [asked_persistStage] at h; cases h

/-! ## Errors of `pickToppings` -/

theorem listLoop_err (chooser : Chooser) :
    ∀ (fuel k : Nat) (rem sel : List String) (shown shown1 : List (List String))
      (top : List String) (msg : String),
      listLoop chooser fuel k rem sel shown = .ret (top, some msg, shown1) →
      top = [] ∧ ∃ k1 items e, (chooser k1 items).err = some e ∧
        msg = "failed to get response: " ++ e := by
  intro fuel
  induction fuel with
  | zero => intro k rem sel shown shown1 top msg h; simp [listLoop] at h
  | succ fuel ih =>
    intro k rem sel shown shown1 top msg h
    unfold listLoop at h
    dsimp only at h
    cases herr : (chooser k (rem ++ ["Done"])).err with
    | some e =>
      rw [herr] at h
      simp only [Exec.ret.injEq, Prod.mk.injEq, Option.some.injEq] at h
      exact ⟨h.1.symm, k, _, e, herr, h.2.1.symm⟩
    | none =>
      rw [herr] at h
      simp only at h
      by_cases hd : (chooser k (rem ++ ["Done"])).label = "Done"
      · simp [hd] at h
      · simp only [hd, if_false] at h
        by_cases hi : (chooser k (rem ++ ["Done"])).index + 1 ≤ rem.length
        · simp only [hi, if_true] at h
          exact ih _ _ _ _ _ _ _ h
        · simp [hi] at h

theorem pickToppings_err (catalog : Catalog) (dish : MainDish) (chooser : Chooser)
    (out : PickOut) (msg : String) (hp : pickToppings catalog dish chooser = .ret out)
    (he : out.err = some msg) :
    out.toppings = [] ∧ ∃ k items e, (chooser k items).err = some e ∧
      msg = "failed to get response: " ++ e := by
  cases hl : catalog.lookup dish with
  | none =>
    simp only [pickToppings, pickToppingsFuel, hl, Exec.ret.injEq] at hp
    subst hp
    simp at he
  | some cands =>
    have h := pickToppingsFuel_eq_listLoop (cands.length + 1) catalog dish cands chooser hl
    rw [pickToppingsFuel_eq_pickToppings _ catalog dish cands chooser hl (Nat.lt_succ_self _),
      hp] at h
    simp only [Exec.map, he] at h
    exact listLoop_err chooser _ _ _ _ _ _ _ _ h.symm

theorem loop_fail (chooser : Chooser) (fuel k : Nat) (st : LoopState) (e : String)
    (h : (chooser k (st.remaining ++ ["Done"])).err = some e) :
    ∃ st1, loop chooser (fuel + 1) k st =
      .ret ([], some ("failed to get response: " ++ e), st1) := by
  unfold loop iteration
  simp only [appendDone_items]
  have hrem : st.arr.take st.len = st.remaining := rfl
  rw [hrem, h]
  exact ⟨_, rfl⟩

theorem pickToppings_spec (catalog : Catalog) (dish : MainDish)
    (cands : List String) (chooser : Chooser) (hl : catalog.lookup dish = some cands)
    (hnd : cands.Nodup) (hD : "Done" ∉ cands) (hw : chooser.WellBehaved) :
    ∃ out, pickToppings catalog dish chooser = .ret out ∧
      out.toppings = specPicked chooser cands ∧ out.err = none := by
  obtain ⟨shown1, heq⟩ :=
    listLoop_spec chooser hw (cands.length + 1) 0 cands [] [] (Nat.lt_succ_self _) hnd hD
  rw [← pickToppingsFuel_eq_listLoop _ catalog dish cands chooser hl,
    pickToppingsFuel_eq_pickToppings _ catalog dish cands chooser hl (Nat.lt_succ_self _)] at heq
  obtain ⟨out, hout, hf⟩ := Exec.map_eq_ret _ _ _ heq
  simp only [Prod.mk.injEq, List.nil_append] at hf
  exact ⟨out, hout, hf.1, hf.2.1⟩

/-- A run that would make at least `m - k` more picks, cut short by a failure of
prompt number `m`, returns the error and no toppings. -/
theorem listLoop_failAt (c : Chooser) (hw : c.WellBehaved) (m : Nat) (e : String) :
    ∀ (fuel k : Nat) (rem sel : List String) (shown : List (List String)),
      rem.length < fuel → rem.Nodup → "Done" ∉ rem → k ≤ m →
      m - k ≤ (specPickToppings c fuel k rem).length →
      ∃ shown1, listLoop (failAt m e c) fuel k rem sel shown =
        .ret ([], some ("failed to get response: " ++ e), shown1) := by
  intro fuel
  induction fuel with
  | zero => intro k rem sel shown h; omega
  | succ fuel ih =>
    intro k rem sel shown h hnd hD hk hlen
    unfold listLoop
    dsimp only
    by_cases hkm : k = m
    · simp [failAt, hkm]
    · have hfa : failAt m e c k (rem ++ ["Done"]) = c k (rem ++ ["Done"]) := by
        simp [failAt, hkm]
      rw [hfa]
      have hne : rem ++ ["Done"] ≠ [] := by simp
      obtain ⟨herr, hvalid⟩ := hw k _ hne
      rw [herr]
      simp only
      unfold specPickToppings at hlen
      dsimp only at hlen
      by_cases hd : (c k (rem ++ ["Done"])).label = "Done"
      · simp only [hd, if_true, List.length_nil] at hlen
        omega
      · simp only [hd, if_false, List.length_cons] at hlen ⊢
        obtain ⟨hi, hget⟩ := valid_pick rem _ _ hvalid hd
        have hi2 : (c k (rem ++ ["Done"])).index + 1 ≤ rem.length := hi
        simp only [hi2, if_true]
        obtain ⟨hlt, hval⟩ := List.getElem?_eq_some.mp hget
        have hl := length_eraseIdx_lt rem _ hi
        have herase : rem.erase (c k (rem ++ ["Done"])).label =
            rem.eraseIdx (c k (rem ++ ["Done"])).index := by
          rw [← hval]; exact List.Nodup.erase_getElem hnd _ hlt
        rw [herase] at hlen
        exact ih (k + 1) _ _ _ (by omega) ((List.eraseIdx_sublist _ _).nodup hnd)
          (fun hmem => hD (List.mem_of_mem_eraseIdx hmem)) (by omega) (by omega)

theorem pickToppings_failAt (catalog : Catalog) (dish : MainDish) (cands : List String)
    (c : Chooser) (m : Nat) (e : String) (hl : catalog.lookup dish = some cands)
    (hnd : cands.Nodup) (hD : "Done" ∉ cands) (hw : c.WellBehaved)
    (hm : m ≤ (specPicked c cands).length) :
    (pickToppings catalog dish (failAt m e c)).map PickOut.returned =
      .ret ([], some ("failed to get response: " ++ e)) := by
  obtain ⟨shown1, heq⟩ :=
    listLoop_failAt c hw m e (cands.length + 1) 0 cands [] [] (Nat.lt_succ_self _) hnd hD
      (Nat.zero_le _) (by simpa [specPicked] using hm)
  rw [← pickToppingsFuel_eq_listLoop _ catalog dish cands _ hl,
    pickToppingsFuel_eq_pickToppings _ catalog dish cands _ hl (Nat.lt_succ_self _)] at heq
  obtain ⟨out, hout, hf⟩ := Exec.map_eq_ret _ _ _ heq
  simp only [Prod.mk.injEq] at hf
  rw [hout]
  simp only [Exec.map, PickOut.returned, hf.1, hf.2.1]

/-! ## Stages that go on -/

theorem asked_bind_left {β α γ : Type} (l : String) (x : Traced β α) (f : α → Traced β γ)
    (h : asked l x.trace = true) : asked l (x.bind f).trace = true := by
  unfold Traced.bind
  cases x.flow <;> simp [asked_append, h]

theorem asked_cookingStage_active {β : Type} (env : Env β) (o : Order)
    (h : o.MainDish = Hamburger ∧ mapGet o.Extras cookingLevelKey = "") :
    asked levelLabel (cookingStage env o).trace = true := by
  unfold cookingStage
  rw [if_pos h]
  cases pickCookingLevel env.levelAnswer with
  | error e => simp [asked]
  | ok level =>
    simp only
    cases mapSet o.Extras cookingLevelKey level <;> simp [asked]

theorem cookingStage_flow {β : Type} (env : Env β) (o : Order)
    (hx : o.Extras ≠ none ∨ ¬(o.MainDish = Hamburger ∧ mapGet o.Extras cookingLevelKey = ""))
    (he : env.levelAnswer.err = none) : ∃ o1, (cookingStage env o).flow = .cont o1 := by
  by_cases hm : o.MainDish = Hamburger ∧ mapGet o.Extras cookingLevelKey = ""
  · rw [cookingStage_ask env o hm he]
    cases hx1 : o.Extras with
    | none => exact absurd hx1 (hx.resolve_right (fun h => h hm))
    | some kvs =>
      obtain ⟨m1, hm1⟩ := mapSet_some kvs cookingLevelKey env.levelAnswer.label
      rw [hm1]
      exact ⟨_, rfl⟩
  · rw [cookingStage_skip env o hm]
    exact ⟨_, rfl⟩

theorem persistStage_flow {β : Type} (env : Env β) (o : Order)
    (hct : ∃ dr, env.createTemp = .ok dr) (hemit : ∀ d, ∃ b, env.yaml.emit d = .ok b)
    (hwrite : ∀ n b, env.write n b = none) :
    ∃ s, (persistStage env o).flow = .cont s ∧ s.order = o := by
  obtain ⟨⟨dir, random⟩, hct⟩ := hct
  obtain ⟨b, hb⟩ := hemit (encodeOrder o)
  rw [persistStage_ok env o dir random b hct hb (hwrite _ _)]
  exact ⟨_, rfl, rfl⟩

/-! ## The claims about the workflow -/

/-- C2 fails on the code. An order imported from a file with `main_dish:
Hamburger` and no extras key has a nil `Extras` map; it reaches the
cooking-level stage, the level prompt is run, and storing the level panics
rather than completing: nothing is saved. A fresh order, whose map `main`
allocates, is saved with the level. -/
theorem cooking_level_panics_on_imported_order :
    askToimportOrderFromFile
        (importEnv "order.yml" [("main_dish", .str "Hamburger")] (scripted [0, 1]) 1) =
        (some { MainDish := "Hamburger", Toppings := [], Extras := none }, none) ∧
      cookingStage (importEnv "order.yml" [("main_dish", .str "Hamburger")] (scripted [0, 1]) 1)
        { MainDish := "Hamburger", Toppings := ["Cheder"], Extras := none } =
        ⟨[.select levelLabel cookingLevels], .panic⟩ ∧
      (main (importEnv "order.yml" [("main_dish", .str "Hamburger")] (scripted [0, 1]) 1)).flow =
        .panic ∧
      (main (importEnv "order.yml" [("main_dish", .str "Hamburger")] (scripted [0, 1]) 1)).saved =
        none ∧
      (main (freshEnv 0 (scripted [0, 1]) 1)).saved =
        some { MainDish := "Hamburger", Toppings := ["Cheder"],
               Extras := some [("cookingLevel", "M")] } := by
  refine ⟨?_, ?_, ?_, ?_, ?_⟩ <;> rfl

/-- C5. A fresh run ("Create a new order") in which no chooser call fails and
the file operations succeed saves an order whose main dish is the dish chosen,
whose toppings are the toppings picked, in pick order, and whose extras are
`cookingLevel: L` for the level `L` chosen when the dish is Hamburger and empty
otherwise. The document written has the key `main_dish`, the key `toppings`
only if a topping was picked and the key `extras` only for a Hamburger. -/
theorem fresh_run_saves_choices {β : Type} (env : Env β) (dir random : String)
    (hnew : env.importAnswer.err = none ∧ env.importAnswer.label = noImport)
    (hdish : env.dishAnswer.Valid [Hamburger, Pizza])
    (htop : env.toppings.WellBehaved)
    (hlevel : env.dishAnswer.label = Hamburger → env.levelAnswer.Valid cookingLevels)
    (hct : env.createTemp = .ok (dir, random))
    (hemit : ∀ d, ∃ b, env.yaml.emit d = .ok b)
    (hwrite : ∀ n b, env.write n b = none) :
    ∃ cands s, possibleToppings.lookup env.dishAnswer.label = some cands ∧
      (main env).flow = .cont s ∧
      s.order =
        { MainDish := env.dishAnswer.label
          Toppings := specPicked env.toppings cands
          Extras := some (if env.dishAnswer.label = Hamburger
            then [(cookingLevelKey, env.levelAnswer.label)] else []) } ∧
      s.name = tempName dir random ∧
      env.yaml.emit (encodeOrder s.order) = .ok s.bytes ∧
      Event.write s.name s.bytes ∈ (main env).trace ∧
      encodeOrder s.order =
        [("main_dish", Value.str env.dishAnswer.label)] ++
        (if specPicked env.toppings cands = [] then []
          else [("toppings", Value.list (specPicked env.toppings cands))]) ++
        (if env.dishAnswer.label = Hamburger
          then [("extras", Value.dict [(cookingLevelKey, env.levelAnswer.label)])] else []) ∧
      ((env.toppings 0 (cands ++ ["Done"])).label = "Done" → s.order.Toppings = []) := by
  have hd : env.dishAnswer.label = Hamburger ∨ env.dishAnswer.label = Pizza := by
    have h2 := hdish.2
    rcases hi : env.dishAnswer.index with _ | _ | n
    · rw [hi] at h2; simp at h2; exact Or.inl h2.symm
    · rw [hi] at h2; simp at h2; exact Or.inr h2.symm
    · rw [hi] at h2; simp at h2
  have hI := importStage_new env hnew.1 hnew.2
  have hD := dishStage_ask env { MainDish := "", Toppings := [], Extras := some [] } rfl hdish.1
  rcases hd with hd | hd
  · -- Hamburger
    obtain ⟨out, hout, htops, herr⟩ :=
      pickToppings_spec possibleToppings env.dishAnswer.label ["Cheder", "Onion"] env.toppings
        (by rw [hd]; rfl) (by decide) (by decide) htop
    have hT := toppingStage_ret env
      { MainDish := env.dishAnswer.label, Toppings := [], Extras := some [] } out rfl hout
    have hC := cookingStage_ask env
      { MainDish := env.dishAnswer.label, Toppings := out.toppings, Extras := some [] }
      ⟨hd, rfl⟩ (hlevel hd).1
    have hset : mapSet (some []) cookingLevelKey env.levelAnswer.label =
        .ret (some [(cookingLevelKey, env.levelAnswer.label)]) := rfl
    simp only [hset] at hC
    obtain ⟨b, hb⟩ := hemit (encodeOrder
      { MainDish := env.dishAnswer.label, Toppings := out.toppings,
        Extras := some [(cookingLevelKey, env.levelAnswer.label)] })
    have hP := persistStage_ok env _ dir random b hct hb (hwrite _ _)
    simp only at hD hT
    have hflow : (main env).flow = .cont
        ⟨{ MainDish := env.dishAnswer.label, Toppings := out.toppings,
           Extras := some [(cookingLevelKey, env.levelAnswer.label)] }, tempName dir random, b⟩ := by
      simp only [main, fromDish, fromToppings, fromCooking, Traced.bind, hI, hD, hT, herr, hC, hP]
    have htrace : Event.write (tempName dir random) b ∈ (main env).trace := by
      simp only [main, fromDish, fromToppings, fromCooking, Traced.bind, hI, hD, hT, herr, hC, hP]
      simp
    refine ⟨["Cheder", "Onion"], _, by rw [hd]; rfl, hflow, ?_, rfl, hb, htrace, ?_, ?_⟩
    · simp only [htops, hd, if_true]
    · have hne : env.dishAnswer.label ≠ "" := by rw [hd]; decide
      simp [encodeOrder, entries, htops, hd, hne, Hamburger]
    · intro h
      simp only [List.cons_append, List.nil_append] at h
      simp only [htops]
      simp [specPicked, specPickToppings, h]
  · -- Pizza
    have hnh : env.dishAnswer.label ≠ Hamburger := by rw [hd]; decide
    obtain ⟨out, hout, htops, herr⟩ :=
      pickToppings_spec possibleToppings env.dishAnswer.label ["Tuna", "Olives"] env.toppings
        (by rw [hd]; rfl) (by decide) (by decide) htop
    have hT := toppingStage_ret env
      { MainDish := env.dishAnswer.label, Toppings := [], Extras := some [] } out rfl hout
    have hC := cookingStage_skip env
      { MainDish := env.dishAnswer.label, Toppings := out.toppings, Extras := some [] }
      (fun h => hnh h.1)
    obtain ⟨b, hb⟩ := hemit (encodeOrder
      { MainDish := env.dishAnswer.label, Toppings := out.toppings, Extras := some [] })
    have hP := persistStage_ok env _ dir random b hct hb (hwrite _ _)
    simp only at hD hT
    have hflow : (main env).flow = .cont
        ⟨{ MainDish := env.dishAnswer.label, Toppings := out.toppings, Extras := some [] },
          tempName dir random, b⟩ := by
      simp only [main, fromDish, fromToppings, fromCooking, Traced.bind, hI, hD, hT, herr, hC, hP]
    have htrace : Event.write (tempName dir random) b ∈ (main env).trace := by
      simp only [main, fromDish, fromToppings, fromCooking, Traced.bind, hI, hD, hT, herr, hC, hP]
      simp
    refine ⟨["Tuna", "Olives"], _, by rw [hd]; rfl, hflow, ?_, rfl, hb, htrace, ?_, ?_⟩
    · simp only [htops, hnh, if_false]
    · have hne : env.dishAnswer.label ≠ "" := by rw [hd]; decide
      simp [encodeOrder, entries, htops, hnh, hne]
    · intro h
      simp only [List.cons_append, List.nil_append] at h
      simp only [htops]
      simp [specPicked, specPickToppings, h]

/-- The two scenarios: Pizza with "Olives" then "Done" is saved as `main_dish:
Pizza`, `toppings: [Olives]` without an extras key; Hamburger with "Done" at once
and level "M" is saved as `main_dish: Hamburger`, `extras: {cookingLevel: M}`
without a toppings key. -/
theorem fresh_run_saves_choices_witness :
    (∃ cands s, possibleToppings.lookup (freshEnv 1 (scripted [1, 1]) 0).dishAnswer.label =
        some cands ∧ (main (freshEnv 1 (scripted [1, 1]) 0)).flow = .cont s) ∧
      (main (freshEnv 1 (scripted [1, 1]) 0)).flow =
        .cont ⟨{ MainDish := "Pizza", Toppings := ["Olives"], Extras := some [] },
          "/tmp/order123.yml",
          [("main_dish", .str "Pizza"), ("toppings", .list ["Olives"])]⟩ ∧
      (main (freshEnv 0 (scripted [2]) 1)).flow =
        .cont ⟨{ MainDish := "Hamburger", Toppings := [], Extras := some [("cookingLevel", "M")] },
          "/tmp/order123.yml",
          [("main_dish", .str "Hamburger"), ("extras", .dict [("cookingLevel", "M")])]⟩ :=
  ⟨(let ⟨cands, s, h1, h2, _⟩ :=
      fresh_run_saves_choices (freshEnv 1 (scripted [1, 1]) 0) "/tmp" "123" ⟨rfl, rfl⟩
        (by decide) (scripted_wellBehaved _) (fun h => absurd h (by decide)) rfl
        (fun d => ⟨d, rfl⟩) (fun _ _ => rfl)
    ⟨cands, s, h1, h2⟩),
    rfl, rfl⟩

/-- C6 as stated fails on the code. The imported file has `main_dish:
Hamburger`, toppings, and an extras entry `cookingLevel` whose value is the
empty string. The entry exists on import, but the cooking-level stage takes an
empty value for unset: the level prompt is run and the saved order has
`cookingLevel: M`, not the imported value. -/
theorem imported_empty_cooking_level_is_overwritten :
    askToimportOrderFromFile
        (importEnv "order.yml"
          [("main_dish", .str "Hamburger"), ("toppings", .list ["Onion"]),
            ("extras", .dict [("cookingLevel", "")])] (scripted []) 1) =
        (some { MainDish := "Hamburger", Toppings := ["Onion"],
                Extras := some [("cookingLevel", "")] }, none) ∧
      (main (importEnv "order.yml"
          [("main_dish", .str "Hamburger"), ("toppings", .list ["Onion"]),
            ("extras", .dict [("cookingLevel", "")])] (scripted []) 1)).saved =
        some { MainDish := "Hamburger", Toppings := ["Onion"],
               Extras := some [("cookingLevel", "M")] } ∧
      (entries (some [("cookingLevel", "")])).lookup cookingLevelKey = some "" ∧
      (entries (some [("cookingLevel", "M")])).lookup cookingLevelKey ≠ some "" ∧
      asked levelLabel (main (importEnv "order.yml"
          [("main_dish", .str "Hamburger"), ("toppings", .list ["Onion"]),
            ("extras", .dict [("cookingLevel", "")])] (scripted []) 1)).trace = true := by
  refine ⟨rfl, rfl, rfl, by decide, rfl⟩

/-- C6, amended. For every imported order: the dish prompt is run only if the
imported main dish is empty and the topping prompts only if the imported
toppings are empty; in the saved order a non-empty imported main dish, non-empty
imported toppings and every imported extras entry have the imported value,
except a `cookingLevel` entry with the empty string as value on a Hamburger,
which is overwritten: in the saved order it has the level the cooking-level
prompt returned. An imported Pizza with toppings runs no dish, topping or
cooking-level prompt, and what is saved is the imported order (and it is saved
when the file operations succeed). -/
theorem imported_order_kept {β : Type} (env : Env β) (o : Order)
    (himp : env.importAnswer.err = none ∧ env.importAnswer.label = imprt)
    (hread : askToimportOrderFromFile env = (some o, none)) :
    (asked dishLabel (main env).trace = true → o.MainDish = "") ∧
      (asked toppingLabel (main env).trace = true → o.Toppings = []) ∧
      (∀ s, (main env).flow = .cont s →
        (o.MainDish ≠ "" → s.order.MainDish = o.MainDish) ∧
        (o.Toppings ≠ [] → s.order.Toppings = o.Toppings) ∧
        (∀ k v, (entries o.Extras).lookup k = some v →
          ¬(k = cookingLevelKey ∧ v = "" ∧ s.order.MainDish = Hamburger) →
          (entries s.order.Extras).lookup k = some v) ∧
        ((entries o.Extras).lookup cookingLevelKey = some "" →
          s.order.MainDish = Hamburger →
          (entries s.order.Extras).lookup cookingLevelKey = some env.levelAnswer.label)) ∧
      (o.MainDish = Pizza → o.Toppings ≠ [] →
        asked dishLabel (main env).trace = false ∧
        asked toppingLabel (main env).trace = false ∧
        asked levelLabel (main env).trace = false ∧
        (∀ s, (main env).flow = .cont s → s.order = o) ∧
        ((∃ dr, env.createTemp = .ok dr) → (∀ d, ∃ b, env.yaml.emit d = .ok b) →
          (∀ n b, env.write n b = none) → ∃ s, (main env).flow = .cont s ∧ s.order = o)) := by
  have hI := importStage_import env o himp.1 himp.2 hread
  have hflow : (main env).flow = (fromDish env o).flow := by
    simp only [main, Traced.bind, hI]
  have htrace : ∀ l, l ≠ importLabel → l ≠ pathLabel →
      asked l (main env).trace = asked l (fromDish env o).trace := by
    intro l h1 h2
    have e : asked l ([.select importLabel [imprt, noImport], .prompt pathLabel] :
        List (Event β)) = false := by
      simp [asked, Ne.symm h1, Ne.symm h2]
    simp only [main, Traced.bind, hI, asked_append, e, Bool.false_or]
  have hdl := htrace dishLabel (by decide) (by decide)
  have htl := htrace toppingLabel (by decide) (by decide)
  have hll := htrace levelLabel (by decide) (by decide)
  refine ⟨fun h => ?_, fun h => ?_, fun s hs => ?_, fun hp ht => ?_⟩
  · rw [hdl] at h
    rcases asked_fromDish env o _ h with h | h | h
    · exact h.2
    · exact absurd h.1 (by decide)
    · exact absurd h.1 (by decide)
  · rw [htl] at h
    rcases asked_fromDish env o _ h with h | h | h
    · exact absurd h.1 (by decide)
    · exact h.2
    · exact absurd h.1 (by decide)
  · rw [hflow] at hs
    obtain ⟨h1, h2, h3, _, h5⟩ := fromDish_cont env o s hs
    exact ⟨h1, h2, h3, fun hl hm => h5 hm (mapGet_eq_of_lookup _ _ _ hl)⟩
  · have hne : o.MainDish ≠ "" := by rw [hp]; decide
    have hnh : o.MainDish ≠ Hamburger := by rw [hp]; decide
    refine ⟨?_, ?_, ?_, fun s hs => ?_, fun hct hemit hwrite => ?_⟩
    · rw [hdl]
      cases ha : asked dishLabel (fromDish env o).trace with
      | false => rfl
      | true =>
        rcases asked_fromDish env o _ ha with h | h | h
        · exact absurd h.2 hne
        · exact absurd h.1 (by decide)
        · exact absurd h.1 (by decide)
    · rw [htl]
      cases ha : asked toppingLabel (fromDish env o).trace with
      | false => rfl
      | true =>
        rcases asked_fromDish env o _ ha with h | h | h
        · exact absurd h.1 (by decide)
        · exact absurd h.2 ht
        · exact absurd h.1 (by decide)
    · rw [hll]
      cases ha : asked levelLabel (fromDish env o).trace with
      | false => rfl
      | true =>
        rcases asked_fromDish env o _ ha with h | h | h
        · exact absurd h.1 (by decide)
        · exact absurd h.1 (by decide)
        · exact absurd (h.2.2 hne) hnh
    · rw [hflow] at hs
      exact (fromDish_cont env o s hs).2.2.2.1 hne hnh ht
    · obtain ⟨s, hs, hso⟩ := persistStage_flow env o hct hemit hwrite
      refine ⟨s, ?_, hso⟩
      rw [hflow]
      simp only [fromDish, fromToppings, fromCooking, Traced.bind, dishStage_skip env o hne,
        toppingStage_skip env o ht, cookingStage_skip env o (fun h => hnh h.1)]
      exact hs

/-- An imported `main_dish: Pizza` with toppings "Olives": no dish, topping or
cooking-level prompt, and the imported order is saved. -/
theorem imported_order_kept_witness :
    (importEnv "order.yml" [("main_dish", .str "Pizza"), ("toppings", .list ["Olives"])]
        (scripted []) 0).importAnswer.label = imprt ∧
      askToimportOrderFromFile
        (importEnv "order.yml" [("main_dish", .str "Pizza"), ("toppings", .list ["Olives"])]
          (scripted []) 0) =
        (some { MainDish := "Pizza", Toppings := ["Olives"], Extras := none }, none) ∧
      asked dishLabel (main (importEnv "order.yml"
        [("main_dish", .str "Pizza"), ("toppings", .list ["Olives"])] (scripted []) 0)).trace =
        false ∧
      asked toppingLabel (main (importEnv "order.yml"
        [("main_dish", .str "Pizza"), ("toppings", .list ["Olives"])] (scripted []) 0)).trace =
        false ∧
      asked levelLabel (main (importEnv "order.yml"
        [("main_dish", .str "Pizza"), ("toppings", .list ["Olives"])] (scripted []) 0)).trace =
        false ∧
      (main (importEnv "order.yml" [("main_dish", .str "Pizza"), ("toppings", .list ["Olives"])]
        (scripted []) 0)).saved =
        some { MainDish := "Pizza", Toppings := ["Olives"], Extras := none } :=
  ⟨rfl, rfl,
    ((imported_order_kept
      (importEnv "order.yml" [("main_dish", .str "Pizza"), ("toppings", .list ["Olives"])]
        (scripted []) 0)
      { MainDish := "Pizza", Toppings := ["Olives"], Extras := none } ⟨rfl, rfl⟩ rfl).2.2.2
        rfl (by decide)).1,
    ((imported_order_kept
      (importEnv "order.yml" [("main_dish", .str "Pizza"), ("toppings", .list ["Olives"])]
        (scripted []) 0)
      { MainDish := "Pizza", Toppings := ["Olives"], Extras := none } ⟨rfl, rfl⟩ rfl).2.2.2
        rfl (by decide)).2.1,
    ((imported_order_kept
      (importEnv "order.yml" [("main_dish", .str "Pizza"), ("toppings", .list ["Olives"])]
        (scripted []) 0)
      { MainDish := "Pizza", Toppings := ["Olives"], Extras := none } ⟨rfl, rfl⟩ rfl).2.2.2
        rfl (by decide)).2.2.1,
    rfl⟩

/-- What holds of a chooser failure during topping selection. At any pass of
the loop, whatever has been selected so far, a failing chooser makes the loop
return an error and no toppings; so a run that would pick at least `m` toppings
and whose prompt number `m` fails instead makes `pickToppings` return the error
and no toppings. When `pickToppings` has returned an error (which
only a chooser failure produces) for an order without toppings: the topping
stage prints the error and goes on with the toppings empty; the run continues
with the cooking-level stage and persist exactly as from that order; the
cooking-level prompt is run when the dish is Hamburger with no cooking level;
and when the cooking-level stage has a map to write to or nothing to write, the
level prompt does not fail and the file operations succeed, the order is saved,
with empty toppings and, for a Hamburger without level, the chosen level. -/
theorem topping_failure_goes_on {β : Type} (env : Env β) (o : Order) (out : PickOut)
    (msg : String) (hempty : o.Toppings = [])
    (hpick : pickToppings possibleToppings o.MainDish env.toppings = .ret out)
    (herr : out.err = some msg) :
    (∀ (chooser : Chooser) (fuel k : Nat) (st : LoopState) (e : String),
        (chooser k (st.remaining ++ ["Done"])).err = some e →
        ∃ st1, loop chooser (fuel + 1) k st =
          .ret ([], some ("failed to get response: " ++ e), st1)) ∧
      (∀ (catalog : Catalog) (dish : MainDish) (cands : List String) (c : Chooser) (m : Nat)
          (e : String), catalog.lookup dish = some cands → cands.Nodup → "Done" ∉ cands →
        c.WellBehaved → m ≤ (specPicked c cands).length →
        (pickToppings catalog dish (failAt m e c)).map PickOut.returned =
          .ret ([], some ("failed to get response: " ++ e))) ∧
      (∃ k items e, (env.toppings k items).err = some e ∧
        msg = "failed to get response: " ++ e) ∧
      out.toppings = [] ∧
      toppingStage env o =
        ⟨out.shown.map (Event.select toppingLabel) ++ [.println msg],
          .cont { o with Toppings := [] }⟩ ∧
      (fromToppings env o).flow = (fromCooking env { o with Toppings := [] }).flow ∧
      (fromToppings env o).trace =
        out.shown.map (Event.select toppingLabel) ++ [.println msg] ++
          (fromCooking env { o with Toppings := [] }).trace ∧
      (o.MainDish = Hamburger → mapGet o.Extras cookingLevelKey = "" →
        asked levelLabel (fromToppings env o).trace = true) ∧
      ((o.Extras ≠ none ∨ ¬(o.MainDish = Hamburger ∧ mapGet o.Extras cookingLevelKey = "")) →
        env.levelAnswer.err = none → (∃ dr, env.createTemp = .ok dr) →
        (∀ d, ∃ b, env.yaml.emit d = .ok b) → (∀ n b, env.write n b = none) →
        ∃ s, (fromToppings env o).flow = .cont s ∧ s.order.MainDish = o.MainDish ∧
          s.order.Toppings = [] ∧
          (o.MainDish = Hamburger → mapGet o.Extras cookingLevelKey = "" →
            (entries s.order.Extras).lookup cookingLevelKey = some env.levelAnswer.label)) := by
  obtain ⟨hnil, hfail⟩ := pickToppings_err _ _ _ out msg hpick herr
  have hT : toppingStage env o =
      ⟨out.shown.map (Event.select toppingLabel) ++ [.println msg],
        .cont { o with Toppings := [] }⟩ := by
    rw [toppingStage_ret env o out hempty hpick, herr, hnil]
  have hflow : (fromToppings env o).flow = (fromCooking env { o with Toppings := [] }).flow := by
    simp only [fromToppings, Traced.bind, hT]
  have htrace : (fromToppings env o).trace =
      out.shown.map (Event.select toppingLabel) ++ [.println msg] ++
        (fromCooking env { o with Toppings := [] }).trace := by
    simp only [fromToppings, Traced.bind, hT]
  refine ⟨fun chooser fuel k st e h => loop_fail chooser fuel k st e h,
    fun catalog dish cands c m e hl hnd hD hw hm =>
      pickToppings_failAt catalog dish cands c m e hl hnd hD hw hm,
    hfail, hnil, hT, hflow, htrace, fun hm hg => ?_, fun hx he hct hemit hwrite => ?_⟩
  · rw [htrace, asked_append]
    have : asked levelLabel (fromCooking env { o with Toppings := [] }).trace = true :=
      asked_bind_left _ _ _ (asked_cookingStage_active env _ ⟨hm, hg⟩)
    simp [this]
  · obtain ⟨o1, ho1⟩ := cookingStage_flow env { o with Toppings := [] } hx he
    obtain ⟨s, hs, hso⟩ := persistStage_flow env o1 hct hemit hwrite
    obtain ⟨c1, c2, _, _, c5⟩ := cookingStage_cont env _ o1 ho1
    refine ⟨s, ?_, by rw [hso, c1], by rw [hso, c2], fun hm hg => ?_⟩
    · rw [hflow]
      simp only [fromCooking]
      rw [bind_flow _ _ o1 ho1]
      exact hs
    · rw [hso]
      exact (c5 hm hg).2.2

/-- A fresh Hamburger order: the user picks "Cheder" and aborts the next
topping prompt. The error is printed, the toppings stay empty, the level prompt
is run and the order is saved. -/
theorem topping_failure_goes_on_fresh :
    pickToppings possibleToppings "Hamburger" (scriptedThenFail [0] "^C") =
        .ret ⟨[], some "failed to get response: ^C",
          [(Hamburger, ["Onion", "Done"]), (Pizza, ["Tuna", "Olives"])],
          [["Cheder", "Onion", "Done"], ["Onion", "Done"]]⟩ ∧
      toppingStage (freshEnv 0 (scriptedThenFail [0] "^C") 1)
          { MainDish := "Hamburger", Toppings := [], Extras := some [] } =
        ⟨[.select toppingLabel ["Cheder", "Onion", "Done"],
            .select toppingLabel ["Onion", "Done"], .println "failed to get response: ^C"],
          .cont { MainDish := "Hamburger", Toppings := [], Extras := some [] }⟩ ∧
      (main (freshEnv 0 (scriptedThenFail [0] "^C") 1)).saved =
        some { MainDish := "Hamburger", Toppings := [], Extras := some [("cookingLevel", "M")] } :=
  ⟨rfl,
    (topping_failure_goes_on (freshEnv 0 (scriptedThenFail [0] "^C") 1)
      { MainDish := "Hamburger", Toppings := [], Extras := some [] }
      ⟨[], some "failed to get response: ^C",
        [(Hamburger, ["Onion", "Done"]), (Pizza, ["Tuna", "Olives"])],
        [["Cheder", "Onion", "Done"], ["Onion", "Done"]]⟩
      "failed to get response: ^C" rfl rfl rfl).2.2.2.2.1,
    rfl⟩

/-- C10 fails on the code. The order is imported from a file with `main_dish:
Hamburger` and nothing else, and the user aborts the first topping prompt.
`pickToppings` returns the error and no toppings, the error is printed and the
run goes on to the cooking-level stage, whose prompt is run; but storing the
level in the nil `Extras` map of the imported order panics, and the order is
not persisted. The same failure in a fresh run, whose map `main` allocates, is
followed by the level prompt and the save. -/
theorem topping_failure_then_panic_on_imported_order :
    askToimportOrderFromFile
        (importEnv "order.yml" [("main_dish", .str "Hamburger")]
          (scriptedThenFail [] "^C") 1) =
        (some { MainDish := "Hamburger", Toppings := [], Extras := none }, none) ∧
      (pickToppings possibleToppings "Hamburger" (scriptedThenFail [] "^C")).map
        PickOut.returned = .ret ([], some "failed to get response: ^C") ∧
      (main (importEnv "order.yml" [("main_dish", .str "Hamburger")]
          (scriptedThenFail [] "^C") 1)).trace =
        [.select importLabel [imprt, noImport], .prompt pathLabel,
          .select toppingLabel ["Cheder", "Onion", "Done"],
          .println "failed to get response: ^C",
          .select levelLabel cookingLevels] ∧
      (main (importEnv "order.yml" [("main_dish", .str "Hamburger")]
          (scriptedThenFail [] "^C") 1)).flow = .panic ∧
      (main (importEnv "order.yml" [("main_dish", .str "Hamburger")]
          (scriptedThenFail [] "^C") 1)).saved = none ∧
      (main (freshEnv 0 (scriptedThenFail [] "^C") 1)).saved =
        some { MainDish := "Hamburger", Toppings := [],
               Extras := some [("cookingLevel", "M")] } := by
  refine ⟨rfl, rfl, rfl, rfl, rfl, rfl⟩

end Takeout
